import Mathlib

/-!
Shallow embedding of the Cipherion JavaScript SDK batch-migration subsystem
(src/utils/migration.ts, MigrationHelper) and of the client entry points
migrateEncrypt / migrateDecrypt (src/client/CipherionClient.ts).

Modelling conventions:
* The remote per-item operation (client.deepEncrypt / client.deepDecrypt) is a
  parameter of type alpha -> Option gamma -> Nat -> Except epsilon beta: given the item, the
  forwarded exclusion options and the (1-based) attempt number, it either
  succeeds with a value or fails with an error.  Indexing by attempt number
  models a nondeterministic network call whose outcome can change between
  retries.
* Math.random() is modelled by an oracle rand : Nat -> Rat giving the random
  number drawn before the wait that follows the given attempt; the jitter in
  the source is Math.random() * 500.
* Each item settlement (the .then / .catch handler followed by the .finally
  handler) is modelled as one atomic aggregator step; the order in which the
  items of a batch settle is unspecified in the source, so the run is
  parameterized by a reordering function sigma applied to each batch, which the
  theorems constrain to be a permutation.
* User callbacks may throw: they return Except Unit Unit, and the migration
  code catches the exception (console.error), counted in callbackErrors.
* JS numbers holding configuration are modelled as Int; Math.round of a
  nonnegative quotient is modelled exactly on rationals (round half up).
-/

namespace Cipherion

variable {α β γ ε : Type}

deriving instance DecidableEq for Except

/-- Math.round (num / den) for nonnegative integers: round half up,
i.e. the floor of num/den + 1/2. -/
def jsRound (num den : Nat) : Nat :=
  (2 * num + den) / (2 * den)

/-- The MigrationProgress record of src/types/client.ts (the `summary`
object of src/utils/migration.ts). -/
structure MigrationProgress where
  total : Nat
  processed : Nat
  successful : Nat
  failed : Nat
  percentage : Nat
deriving Repr, DecidableEq

/-- One record of the `failed` array: `{ item, error }`.  The error is the
value of `lastError` when the retry loop exhausts; it is `none` exactly when
the loop body never ran (maxRetries < 1), in which case JS throws
`undefined`. -/
structure FailedRecord (α ε : Type) where
  item : α
  error : Option ε
deriving Repr, DecidableEq

/-- The MigrationResult record of src/types/client.ts. -/
structure MigrationResult (α β ε : Type) where
  successful : List β
  failed : List (FailedRecord α ε)
  summary : MigrationProgress
deriving Repr, DecidableEq

/-- Observable outcome of processEncryptionWithRetry /
processDecryptionWithRetry on one item: the returned value or thrown error,
the number of times the remote operation was invoked, and the backoff waits
performed (in milliseconds, as exact rationals). -/
structure RetryOutcome (β ε : Type) where
  result : Except (Option ε) β
  attempts : Nat
  waits : List ℚ
deriving Repr, DecidableEq

/-- The retry loop of processEncryptionWithRetry (migration.ts lines
175-190): `for (attempt = 1; attempt <= maxRetries; attempt++)`, returning on
the first success; on failure with `attempt < maxRetries` it waits
`1000 * attempt + Math.random() * 500` milliseconds and retries; after the
final failed attempt it throws the last error.  `remaining` counts the
attempts still allowed (maxRetries - attempt + 1); when the loop is entered
with zero allowed attempts it throws the uninitialized `lastError`
(error none). -/
def retryLoop (call : Nat → Except ε β) (rand : Nat → ℚ) :
    (attempt : Nat) → (remaining : Nat) → RetryOutcome β ε
  | _, 0 => ⟨.error none, 0, []⟩
  | attempt, remaining + 1 =>
    match call attempt with
    | .ok b => ⟨.ok b, 1, []⟩
    | .error e =>
      if remaining = 0 then
        ⟨.error (some e), 1, []⟩
      else
        let rest := retryLoop call rand (attempt + 1) remaining
        ⟨rest.result, rest.attempts + 1,
          ((1000 : ℚ) * attempt + rand attempt * 500) :: rest.waits⟩

/-- processEncryptionWithRetry (migration.ts lines 168-191): retries
`deepEncrypt data exclusionOptions` up to maxRetries times. -/
def processEncryptionWithRetry (deepEncrypt : α → Option γ → Nat → Except ε β)
    (data : α) (maxRetries : Nat) (exclusionOptions : Option γ)
    (rand : Nat → ℚ) : RetryOutcome β ε :=
  retryLoop (fun attempt => deepEncrypt data exclusionOptions attempt) rand 1 maxRetries

/-- processDecryptionWithRetry (migration.ts lines 193-216): identical loop
driving `deepDecrypt`. -/
def processDecryptionWithRetry (deepDecrypt : α → Option γ → Nat → Except ε β)
    (encryptedData : α) (maxRetries : Nat) (exclusionOptions : Option γ)
    (rand : Nat → ℚ) : RetryOutcome β ε :=
  retryLoop (fun attempt => deepDecrypt encryptedData exclusionOptions attempt) rand 1 maxRetries

/-- MigrationOptions of src/types/client.ts.  A `none` field means the
option was not supplied, so the destructuring defaults of migration.ts lines
17-24 apply.  Callbacks may throw (Except.error). -/
structure MigrationOptions (α γ ε : Type) where
  batchSize : Option Int := none
  delayBetweenBatches : Option Int := none
  maxRetries : Option Int := none
  onProgress : Option (MigrationProgress → Except Unit Unit) := none
  onError : Option (Option ε → α → Except Unit Unit) := none
  exclusionOptions : Option γ := none

/-- `const safeBatchSize = Math.min(Math.max(1, batchSize), 100)`
(migration.ts line 27). -/
def safeBatchSize (batchSize : Int) : Int :=
  min (max 1 batchSize) 100

/-- `const safeDelay = Math.max(0, delayBetweenBatches)`
(migration.ts line 28). -/
def safeDelay (delayBetweenBatches : Int) : Int :=
  max 0 delayBetweenBatches

/-- `const safeRetries = Math.min(Math.max(1, maxRetries), 10)`
(migration.ts line 29). -/
def safeRetries (maxRetries : Int) : Int :=
  min (max 1 maxRetries) 10

/-- A settled item of a batch: the item, the outcome of its retrying
processor, and how many times the remote operation was invoked for it. -/
structure SettledItem (α β ε : Type) where
  item : α
  outcome : Except (Option ε) β
  attempts : Nat
deriving Repr, DecidableEq

/-- Builds the settled record of one item from its processor outcome. -/
def mkSettled (proc : α → RetryOutcome β ε) (item : α) : SettledItem α β ε :=
  ⟨item, (proc item).result, (proc item).attempts⟩

/-- `batch.map((item) => this.processEncryptionWithRetry(...))` followed by
`Promise.allSettled` (migration.ts lines 45-46, 80): every item of the batch
is dispatched and every outcome is collected. -/
def settleBatch (proc : α → RetryOutcome β ε) (batch : List α) :
    List (SettledItem α β ε) :=
  batch.map (mkSettled proc)

/-- Events observable from a run: a batch being dispatched, or the
inter-batch delay being invoked with the given number of milliseconds. -/
inductive MigEvent (α : Type) where
  | batch (items : List α)
  | delay (ms : Int)
deriving Repr, DecidableEq

/-- Full observable state of one migration run: the MigrationResult under
construction, the sequence of summary snapshots passed to onProgress (one per
settled item, in settlement order), the number of caught callback exceptions
(console.error calls), the total number of remote-operation invocations, the
number of inter-batch delay invocations, the batch/delay event trace, and
the log of (error, item) argument pairs passed to the user onError callback,
in invocation order (empty whenever onError is not configured). -/
structure RunState (α β ε : Type) where
  result : MigrationResult α β ε
  snapshots : List MigrationProgress
  callbackErrors : Nat
  opCalls : Nat
  delayCalls : Nat
  trace : List (MigEvent α)
  onErrorCalls : List (FailedRecord α ε) := []
deriving Repr, DecidableEq

/-- The pure aggregator mutation of one item settlement (migration.ts lines
47-68): the .then handler pushes the encrypted value and increments
summary.successful, the .catch handler pushes `{item, error}` and increments
summary.failed, and the .finally handler increments summary.processed and
recomputes summary.percentage as Math.round(processed / total * 100). -/
def applyOutcome (r : MigrationResult α β ε) (s : SettledItem α β ε) :
    MigrationResult α β ε :=
  let r1 : MigrationResult α β ε :=
    match s.outcome with
    | .ok encrypted =>
      { r with successful := r.successful ++ [encrypted],
               summary := { r.summary with successful := r.summary.successful + 1 } }
    | .error e =>
      { r with failed := r.failed ++ [{ item := s.item, error := e }],
               summary := { r.summary with failed := r.summary.failed + 1 } }
  { r1 with summary :=
      { r1.summary with
        processed := r1.summary.processed + 1,
        percentage := jsRound ((r1.summary.processed + 1) * 100) r1.summary.total } }

/-- The .then / .catch handler mutation alone (migration.ts lines 47-63):
push the encrypted value or the `{item, error}` record and bump the matching
classification counter.  This is the first microtask of an item settlement. -/
def classifyResult (r : MigrationResult α β ε) (s : SettledItem α β ε) :
    MigrationResult α β ε :=
  match s.outcome with
  | .ok encrypted =>
    { r with successful := r.successful ++ [encrypted],
             summary := { r.summary with successful := r.summary.successful + 1 } }
  | .error e =>
    { r with failed := r.failed ++ [{ item := s.item, error := e }],
             summary := { r.summary with failed := r.summary.failed + 1 } }

/-- The .finally handler mutation alone (migration.ts lines 64-68): bump
summary.processed and recompute summary.percentage from the shared summary.
This is the second microtask of an item settlement; its closure reads no
per-item data. -/
def finalizeResult (r : MigrationResult α β ε) : MigrationResult α β ε :=
  { r with summary :=
      { r.summary with
        processed := r.summary.processed + 1,
        percentage := jsRound ((r.summary.processed + 1) * 100) r.summary.total } }

/-- Outcome of invoking the user onError callback inside try/catch
(migration.ts lines 55-62): 1 if the callback threw (the exception is caught
and sent to console.error), 0 otherwise. -/
def onErrorFaults (onError : Option (Option ε → α → Except Unit Unit))
    (e : Option ε) (item : α) : Nat :=
  match onError with
  | none => 0
  | some cb => match cb e item with | .ok _ => 0 | .error _ => 1

/-- Outcome of invoking the user onProgress callback inside try/catch
(migration.ts lines 69-76): 1 if the callback threw, 0 otherwise. -/
def onProgressFaults (onProgress : Option (MigrationProgress → Except Unit Unit))
    (s : MigrationProgress) : Nat :=
  match onProgress with
  | none => 0
  | some cb => match cb s with | .ok _ => 0 | .error _ => 1

/-- The onError invocation fired by one failure-path settlement: the source
calls `onError(error, item)` exactly when the callback is configured
(migration.ts lines 55-62).  Recorded as the argument pair (error, item),
which has the same shape as a failure record. -/
def onErrorInvocations (onError : Option (Option ε → α → Except Unit Unit))
    (e : Option ε) (item : α) : List (FailedRecord α ε) :=
  match onError with
  | none => []
  | some _ => [{ item := item, error := e }]

/-- One atomic item settlement: the .then/.catch handler and the .finally
handler of migration.ts lines 47-77.  Updates the result, records the
summary snapshot that onProgress observes, and counts caught callback
exceptions (onError fires only on the failure path; onProgress fires in the
.finally with the freshly updated summary). -/
def settleStep (onProgress : Option (MigrationProgress → Except Unit Unit))
    (onError : Option (Option ε → α → Except Unit Unit))
    (st : RunState α β ε) (s : SettledItem α β ε) : RunState α β ε :=
  let r := applyOutcome st.result s
  { st with
    result := r,
    snapshots := st.snapshots ++ [r.summary],
    onErrorCalls := st.onErrorCalls
      ++ (match s.outcome with
          | .ok _ => []
          | .error e => onErrorInvocations onError e s.item),
    callbackErrors := st.callbackErrors
      + (match s.outcome with
         | .ok _ => 0
         | .error e => onErrorFaults onError e s.item)
      + onProgressFaults onProgress r.summary }

/-- The batch loop of encryptMigration / decryptMigration (migration.ts lines
43-86), fuel-indexed so that the recursion is structural: slice off a batch
of k+1 items (k+1 is the clamped batch size, which the source guarantees is
at least 1), dispatch and settle all of its items (in the settlement order
chosen by sigma), and if more items remain and the clamped delay is positive,
invoke the inter-batch delay before the next batch. -/
def runBatchesAux (proc : α → RetryOutcome β ε)
    (onProgress : Option (MigrationProgress → Except Unit Unit))
    (onError : Option (Option ε → α → Except Unit Unit))
    (σ : List (SettledItem α β ε) → List (SettledItem α β ε))
    (k : Nat) (d : Int) :
    Nat → List α → RunState α β ε → RunState α β ε
  | 0, _, st => st
  | _ + 1, [], st => st
  | fuel + 1, x :: xs, st =>
    let l := x :: xs
    let batch := l.take (k + 1)
    let settled := σ (settleBatch proc batch)
    let st0 := { st with
      opCalls := st.opCalls + ((settleBatch proc batch).map SettledItem.attempts).sum,
      trace := st.trace ++ [MigEvent.batch batch] }
    let st1 := settled.foldl (settleStep onProgress onError) st0
    let st2 :=
      if k + 1 < l.length ∧ 0 < d then
        { st1 with delayCalls := st1.delayCalls + 1,
                   trace := st1.trace ++ [MigEvent.delay d] }
      else st1
    runBatchesAux proc onProgress onError σ k d fuel (l.drop (k + 1)) st2

/-- The settled items of a whole run, batch by batch, in settlement order
(proof-level characterization of the sequence of outcomes the aggregator
consumes). -/
def settledRunAux (proc : α → RetryOutcome β ε)
    (σ : List (SettledItem α β ε) → List (SettledItem α β ε))
    (k : Nat) : Nat → List α → List (SettledItem α β ε)
  | 0, _ => []
  | _ + 1, [] => []
  | fuel + 1, x :: xs =>
    let l := x :: xs
    σ (settleBatch proc (l.take (k + 1))) ++
      settledRunAux proc σ k fuel (l.drop (k + 1))

/-- One microtask of the settlement of one item: the .then/.catch handler
(classify, carrying the settled item it closes over) or the .finally handler
(finalize, whose closure reads only the shared summary).  In the source
these are distinct jobs on the microtask queue, so the handlers of different
items of one batch may interleave; the only per-item ordering guarantee of
the promise chain is that an item's classify runs before its finalize. -/
inductive MicroEvent (α β ε : Type) where
  | classify (s : SettledItem α β ε)
  | finalize
deriving Repr, DecidableEq

/-- The .then / .catch microtask acting on the run state (migration.ts lines
47-63): classify the settled item into the result and, on the failure path,
invoke onError inside try/catch, logging the (error, item) argument pair. -/
def phaseA (onError : Option (Option ε → α → Except Unit Unit))
    (st : RunState α β ε) (s : SettledItem α β ε) : RunState α β ε :=
  { st with
    result := classifyResult st.result s,
    onErrorCalls := st.onErrorCalls
      ++ (match s.outcome with
          | .ok _ => []
          | .error e => onErrorInvocations onError e s.item),
    callbackErrors := st.callbackErrors
      + (match s.outcome with
         | .ok _ => 0
         | .error e => onErrorFaults onError e s.item) }

/-- The .finally microtask acting on the run state (migration.ts lines
64-77): bump processed, recompute percentage, and invoke onProgress inside
try/catch with the freshly updated shared summary. -/
def phaseB (onProgress : Option (MigrationProgress → Except Unit Unit))
    (st : RunState α β ε) : RunState α β ε :=
  let r := finalizeResult st.result
  { st with
    result := r,
    snapshots := st.snapshots ++ [r.summary],
    callbackErrors := st.callbackErrors + onProgressFaults onProgress r.summary }

/-- Drains one batch's settlement microtasks in the given schedule order. -/
def runMicro (onProgress : Option (MigrationProgress → Except Unit Unit))
    (onError : Option (Option ε → α → Except Unit Unit)) :
    RunState α β ε → List (MicroEvent α β ε) → RunState α β ε
  | st, [] => st
  | st, .classify s :: rest => runMicro onProgress onError (phaseA onError st s) rest
  | st, .finalize :: rest => runMicro onProgress onError (phaseB onProgress st) rest

/-- Number of classify events in a schedule. -/
def classifyCount (ev : List (MicroEvent α β ε)) : Nat :=
  ev.countP (fun x => match x with | .classify _ => true | .finalize => false)

/-- Number of finalize events in a schedule. -/
def finalizeCount (ev : List (MicroEvent α β ε)) : Nat :=
  ev.countP (fun x => match x with | .classify _ => false | .finalize => true)

/-- The settled items carried by the classify events, in schedule order. -/
def classifiedItems (ev : List (MicroEvent α β ε)) : List (SettledItem α β ε) :=
  ev.filterMap (fun x => match x with | .classify s => some s | .finalize => none)

/-- A microtask schedule assigns to each batch the order in which its
settlement microtasks drain.  A schedule is valid for a processor when each
batch's classify events are exactly that batch's settlements (in some
order), there is one finalize event per item, and no prefix of the schedule
finalizes more items than it has classified — the promise-chain constraint
that every item's .finally handler runs after its own .then/.catch
handler. -/
def ValidSchedule (proc : α → RetryOutcome β ε)
    (sched : List α → List (MicroEvent α β ε)) : Prop :=
  ∀ batch : List α,
    List.Perm (classifiedItems (sched batch)) (settleBatch proc batch) ∧
    finalizeCount (sched batch) = batch.length ∧
    ∀ n, finalizeCount ((sched batch).take n) ≤ classifyCount ((sched batch).take n)

/-- The drain order that arises when every operation of a batch settles in
the same tick (e.g. synchronous rejections): the microtask queue then holds
all .then/.catch handlers ahead of every .finally handler, so all items are
classified (in dispatch order) before any is finalized. -/
def classifyFirstSchedule (proc : α → RetryOutcome β ε) :
    List α → List (MicroEvent α β ε) :=
  fun batch =>
    (settleBatch proc batch).map MicroEvent.classify ++
      List.replicate batch.length MicroEvent.finalize

/-- The batch loop of encryptMigration / decryptMigration with explicit
microtask scheduling: as runBatchesAux, but each batch's settlement
handlers drain in the interleaving the schedule dictates instead of
atomically per item. -/
def runBatchesMicroAux (proc : α → RetryOutcome β ε)
    (onProgress : Option (MigrationProgress → Except Unit Unit))
    (onError : Option (Option ε → α → Except Unit Unit))
    (sched : List α → List (MicroEvent α β ε))
    (k : Nat) (d : Int) :
    Nat → List α → RunState α β ε → RunState α β ε
  | 0, _, st => st
  | _ + 1, [], st => st
  | fuel + 1, x :: xs, st =>
    let l := x :: xs
    let batch := l.take (k + 1)
    let st0 := { st with
      opCalls := st.opCalls + ((settleBatch proc batch).map SettledItem.attempts).sum,
      trace := st.trace ++ [MigEvent.batch batch] }
    let st1 := runMicro onProgress onError st0 (sched batch)
    let st2 :=
      if k + 1 < l.length ∧ 0 < d then
        { st1 with delayCalls := st1.delayCalls + 1,
                   trace := st1.trace ++ [MigEvent.delay d] }
      else st1
    runBatchesMicroAux proc onProgress onError sched k d fuel (l.drop (k + 1)) st2

/-- The sequence of summary snapshots produced by settling the given items
in order, starting from result r (proof-level characterization of the
arguments passed to onProgress). -/
def snapshotTrail (r : MigrationResult α β ε) :
    List (SettledItem α β ε) → List MigrationProgress
  | [] => []
  | s :: S => (applyOutcome r s).summary :: snapshotTrail (applyOutcome r s) S

/-- The fresh MigrationResult of migration.ts lines 31-41 wrapped in the
instrumented run state. -/
def initialState (total : Nat) : RunState α β ε :=
  { result := { successful := [], failed := [],
                summary := { total := total, processed := 0, successful := 0,
                             failed := 0, percentage := 0 } },
    snapshots := [], callbackErrors := 0, opCalls := 0, delayCalls := 0,
    trace := [], onErrorCalls := [] }

/-- The per-item processor that encryptMigration hands to each batch:
processEncryptionWithRetry with the clamped retry budget and the forwarded
exclusion options (migration.ts line 46). -/
def encryptProc (deepEncrypt : α → Option γ → Nat → Except ε β)
    (options : MigrationOptions α γ ε) (rand : α → Nat → ℚ) :
    α → RetryOutcome β ε :=
  fun item =>
    processEncryptionWithRetry deepEncrypt item
      (safeRetries (options.maxRetries.getD 3)).toNat options.exclusionOptions
      (rand item)

/-- The per-item processor of decryptMigration (migration.ts line 125). -/
def decryptProc (deepDecrypt : α → Option γ → Nat → Except ε β)
    (options : MigrationOptions α γ ε) (rand : α → Nat → ℚ) :
    α → RetryOutcome β ε :=
  fun item =>
    processDecryptionWithRetry deepDecrypt item
      (safeRetries (options.maxRetries.getD 3)).toNat options.exclusionOptions
      (rand item)

/-- MigrationHelper.encryptMigration (migration.ts lines 12-89): apply the
option defaults, clamp them, build the fresh result, and run the batch loop.
The passphrase parameter is accepted exactly as in the source, which never
reads it.  rand supplies the Math.random draws; sigma fixes the settlement
order of each batch. -/
def encryptMigration (deepEncrypt : α → Option γ → Nat → Except ε β)
    (dataArray : List α) (passphrase : String)
    (options : MigrationOptions α γ ε) (rand : α → Nat → ℚ)
    (σ : List (SettledItem α β ε) → List (SettledItem α β ε)) :
    RunState α β ε :=
  runBatchesAux (encryptProc deepEncrypt options rand)
    options.onProgress options.onError σ
    ((safeBatchSize (options.batchSize.getD 10)).toNat - 1)
    (safeDelay (options.delayBetweenBatches.getD 1000))
    dataArray.length dataArray (initialState dataArray.length)

/-- MigrationHelper.decryptMigration (migration.ts lines 91-166): the same
pipeline driving deepDecrypt. -/
def decryptMigration (deepDecrypt : α → Option γ → Nat → Except ε β)
    (encryptedArray : List α) (passphrase : String)
    (options : MigrationOptions α γ ε) (rand : α → Nat → ℚ)
    (σ : List (SettledItem α β ε) → List (SettledItem α β ε)) :
    RunState α β ε :=
  runBatchesAux (decryptProc deepDecrypt options rand)
    options.onProgress options.onError σ
    ((safeBatchSize (options.batchSize.getD 10)).toNat - 1)
    (safeDelay (options.delayBetweenBatches.getD 1000))
    encryptedArray.length encryptedArray (initialState encryptedArray.length)

/-- MigrationHelper.encryptMigration under an explicit microtask schedule of
each batch's settlement handlers.  This refines encryptMigration: the
sigma-reordered atomic settlements of the coarse model are exactly the
schedules that alternate one classify and one finalize per item. -/
def encryptMigrationMicro (deepEncrypt : α → Option γ → Nat → Except ε β)
    (dataArray : List α) (passphrase : String)
    (options : MigrationOptions α γ ε) (rand : α → Nat → ℚ)
    (sched : List α → List (MicroEvent α β ε)) :
    RunState α β ε :=
  runBatchesMicroAux (encryptProc deepEncrypt options rand)
    options.onProgress options.onError sched
    ((safeBatchSize (options.batchSize.getD 10)).toNat - 1)
    (safeDelay (options.delayBetweenBatches.getD 1000))
    dataArray.length dataArray (initialState dataArray.length)

/-- CipherionError with the fields the migration entry points populate
(src/errors/CipherionError.ts). -/
structure CipherionError where
  message : String
  statusCode : Int
deriving Repr, DecidableEq

/-- The dynamically typed `dataArray` argument of
CipherionClient.migrateEncrypt: either an actual array or any non-array
value (which `Array.isArray` rejects). -/
inductive MigrationInput (α : Type) where
  | arr (items : List α)
  | notArray
deriving Repr, DecidableEq

/-- CipherionClient.migrateEncrypt (CipherionClient.ts): throws if the
configured passphrase is falsy, throws if dataArray is not an array, returns
the fixed empty result (percentage 100) for an empty array without invoking
anything, and otherwise delegates to MigrationHelper.encryptMigration.  The
final result is returned unconditionally; the catch block only logs and
rethrows, and encryptMigration is total. -/
def migrateEncrypt (deepEncrypt : α → Option γ → Nat → Except ε β)
    (passphrase : String) (dataArray : MigrationInput α)
    (options : MigrationOptions α γ ε) (rand : α → Nat → ℚ)
    (σ : List (SettledItem α β ε) → List (SettledItem α β ε)) :
    Except CipherionError (RunState α β ε) :=
  if passphrase.isEmpty then
    .error ⟨"Passphrase is required for migration", 400⟩
  else
    match dataArray with
    | .notArray => .error ⟨"dataArray must be an array", 400⟩
    | .arr items =>
      if items.length = 0 then
        .ok { result := { successful := [], failed := [],
                          summary := { total := 0, processed := 0, successful := 0,
                                       failed := 0, percentage := 100 } },
              snapshots := [], callbackErrors := 0, opCalls := 0, delayCalls := 0,
              trace := [], onErrorCalls := [] }
      else
        .ok (encryptMigration deepEncrypt items passphrase options rand σ)

/-- CipherionClient.migrateDecrypt (CipherionClient.ts): the decrypt-side
entry point with the same pre-flight checks and empty-array short circuit. -/
def migrateDecrypt (deepDecrypt : α → Option γ → Nat → Except ε β)
    (passphrase : String) (encryptedArray : MigrationInput α)
    (options : MigrationOptions α γ ε) (rand : α → Nat → ℚ)
    (σ : List (SettledItem α β ε) → List (SettledItem α β ε)) :
    Except CipherionError (RunState α β ε) :=
  if passphrase.isEmpty then
    .error ⟨"Passphrase is required for migration", 400⟩
  else
    match encryptedArray with
    | .notArray => .error ⟨"encryptedArray must be an array", 400⟩
    | .arr items =>
      if items.length = 0 then
        .ok { result := { successful := [], failed := [],
                          summary := { total := 0, processed := 0, successful := 0,
                                       failed := 0, percentage := 100 } },
              snapshots := [], callbackErrors := 0, opCalls := 0, delayCalls := 0,
              trace := [], onErrorCalls := [] }
      else
        .ok (decryptMigration deepDecrypt items passphrase options rand σ)

/-- True when a settled outcome is a success (the .then path). -/
def outcomeOk : Except (Option ε) β → Bool
  | .ok _ => true
  | .error _ => false

/-- The value a successful settlement pushes onto `successful`. -/
def okValue : Except (Option ε) β → Option β
  | .ok b => some b
  | .error _ => none

/-- The record a failed settlement pushes onto `failed`. -/
def errRecord (s : SettledItem α β ε) : Option (FailedRecord α ε) :=
  match s.outcome with
  | .error e => some { item := s.item, error := e }
  | .ok _ => none

/-- The aggregator invariant: processed = successful + failed. -/
def summaryInv (sm : MigrationProgress) : Prop :=
  sm.processed = sm.successful + sm.failed

/-- The batch/delay event sequence the batch loop emits (proof-level
characterization of the trace field of runBatchesAux). -/
def batchTrace (k : Nat) (d : Int) : Nat → List α → List (MigEvent α)
  | 0, _ => []
  | _ + 1, [] => []
  | fuel + 1, x :: xs =>
    MigEvent.batch ((x :: xs).take (k + 1)) ::
      ((if k + 1 < (x :: xs).length ∧ 0 < d then [MigEvent.delay d] else []) ++
        batchTrace k d fuel ((x :: xs).drop (k + 1)))

/-- The number of inter-batch delay invocations the batch loop performs
(proof-level characterization of the delayCalls field of runBatchesAux). -/
def delayCount (k : Nat) (d : Int) : Nat → List α → Nat
  | 0, _ => 0
  | _ + 1, [] => 0
  | fuel + 1, x :: xs =>
    (if k + 1 < (x :: xs).length ∧ 0 < d then 1 else 0) +
      delayCount k d fuel ((x :: xs).drop (k + 1))

section Lemmas

variable {proc : α → RetryOutcome β ε}
variable {p : Option (MigrationProgress → Except Unit Unit)}
variable {e : Option (Option ε → α → Except Unit Unit)}
variable {σ : List (SettledItem α β ε) → List (SettledItem α β ε)}

@[simp] theorem applyOutcome_total (r : MigrationResult α β ε) (s : SettledItem α β ε) :
    (applyOutcome r s).summary.total = r.summary.total := by
  rcases s with ⟨it, out, att⟩; cases out <;> simp [applyOutcome]

@[simp] theorem applyOutcome_processed (r : MigrationResult α β ε) (s : SettledItem α β ε) :
    (applyOutcome r s).summary.processed = r.summary.processed + 1 := by
  rcases s with ⟨it, out, att⟩; cases out <;> simp [applyOutcome]

theorem applyOutcome_successful (r : MigrationResult α β ε) (s : SettledItem α β ε) :
    (applyOutcome r s).summary.successful =
      r.summary.successful + (if outcomeOk s.outcome then 1 else 0) := by
  rcases s with ⟨it, out, att⟩; cases out <;> simp [applyOutcome, outcomeOk]

theorem applyOutcome_failedCount (r : MigrationResult α β ε) (s : SettledItem α β ε) :
    (applyOutcome r s).summary.failed =
      r.summary.failed + (if outcomeOk s.outcome then 0 else 1) := by
  rcases s with ⟨it, out, att⟩; cases out <;> simp [applyOutcome, outcomeOk]

theorem applyOutcome_percentage (r : MigrationResult α β ε) (s : SettledItem α β ε) :
    (applyOutcome r s).summary.percentage =
      jsRound ((r.summary.processed + 1) * 100) r.summary.total := by
  rcases s with ⟨it, out, att⟩; cases out <;> simp [applyOutcome]

theorem applyOutcome_successList (r : MigrationResult α β ε) (s : SettledItem α β ε) :
    (applyOutcome r s).successful = r.successful ++ (okValue s.outcome).toList := by
  rcases s with ⟨it, out, att⟩; cases out <;> simp [applyOutcome, okValue]

theorem applyOutcome_failedList (r : MigrationResult α β ε) (s : SettledItem α β ε) :
    (applyOutcome r s).failed = r.failed ++ (errRecord s).toList := by
  rcases s with ⟨it, out, att⟩; cases out <;> simp [applyOutcome, errRecord]

theorem applyOutcome_summaryInv (r : MigrationResult α β ε) (s : SettledItem α β ε)
    (h : summaryInv r.summary) : summaryInv (applyOutcome r s).summary := by
  rcases s with ⟨it, out, att⟩
  cases out <;> simp [applyOutcome, summaryInv] at h ⊢ <;> omega

theorem foldl_applyOutcome_total (S : List (SettledItem α β ε)) (r : MigrationResult α β ε) :
    (S.foldl applyOutcome r).summary.total = r.summary.total := by
  induction S generalizing r with
  | nil => rfl
  | cons s S ih => simp [List.foldl_cons, ih]

theorem foldl_applyOutcome_processed (S : List (SettledItem α β ε)) (r : MigrationResult α β ε) :
    (S.foldl applyOutcome r).summary.processed = r.summary.processed + S.length := by
  induction S generalizing r with
  | nil => rfl
  | cons s S ih => simp [List.foldl_cons, ih]; omega

theorem foldl_applyOutcome_successful (S : List (SettledItem α β ε)) (r : MigrationResult α β ε) :
    (S.foldl applyOutcome r).summary.successful =
      r.summary.successful + S.countP (fun s => outcomeOk s.outcome) := by
  induction S generalizing r with
  | nil => simp
  | cons s S ih =>
    simp [List.foldl_cons, ih, applyOutcome_successful, List.countP_cons]
    rcases hs : outcomeOk s.outcome <;> simp [hs] <;> omega

theorem foldl_applyOutcome_failedCount (S : List (SettledItem α β ε)) (r : MigrationResult α β ε) :
    (S.foldl applyOutcome r).summary.failed =
      r.summary.failed + S.countP (fun s => !outcomeOk s.outcome) := by
  induction S generalizing r with
  | nil => simp
  | cons s S ih =>
    simp [List.foldl_cons, ih, applyOutcome_failedCount, List.countP_cons]
    rcases hs : outcomeOk s.outcome <;> simp [hs] <;> omega

theorem foldl_applyOutcome_successList (S : List (SettledItem α β ε)) (r : MigrationResult α β ε) :
    (S.foldl applyOutcome r).successful =
      r.successful ++ S.filterMap (fun s => okValue s.outcome) := by
  induction S generalizing r with
  | nil => simp
  | cons s S ih =>
    rcases hs : s.outcome with b | er <;>
      simp [List.foldl_cons, ih, applyOutcome_successList, List.filterMap_cons, hs,
        okValue, List.append_assoc]

theorem foldl_applyOutcome_failedList (S : List (SettledItem α β ε)) (r : MigrationResult α β ε) :
    (S.foldl applyOutcome r).failed = r.failed ++ S.filterMap errRecord := by
  induction S generalizing r with
  | nil => simp
  | cons s S ih =>
    rcases s with ⟨it, out, att⟩
    rcases out with b | er <;>
      simp [List.foldl_cons, ih, applyOutcome_failedList, List.filterMap_cons,
        errRecord, List.append_assoc]

theorem foldl_applyOutcome_summaryInv (S : List (SettledItem α β ε))
    (r : MigrationResult α β ε) (h : summaryInv r.summary) :
    summaryInv (S.foldl applyOutcome r).summary := by
  induction S generalizing r with
  | nil => exact h
  | cons s S ih => exact ih _ (applyOutcome_summaryInv r s h)

theorem snapshotTrail_append (S1 S2 : List (SettledItem α β ε)) (r : MigrationResult α β ε) :
    snapshotTrail r (S1 ++ S2) =
      snapshotTrail r S1 ++ snapshotTrail (S1.foldl applyOutcome r) S2 := by
  induction S1 generalizing r with
  | nil => rfl
  | cons s S1 ih => simp [snapshotTrail, ih, List.foldl_cons]

theorem snapshotTrail_length (S : List (SettledItem α β ε)) (r : MigrationResult α β ε) :
    (snapshotTrail r S).length = S.length := by
  induction S generalizing r with
  | nil => rfl
  | cons s S ih => simp [snapshotTrail, ih]

theorem snapshotTrail_map_processed (S : List (SettledItem α β ε)) (r : MigrationResult α β ε) :
    (snapshotTrail r S).map MigrationProgress.processed =
      (List.range S.length).map (fun i => r.summary.processed + i + 1) := by
  induction S generalizing r with
  | nil => rfl
  | cons s S ih =>
    simp only [snapshotTrail, List.map_cons, ih, applyOutcome_processed,
      List.length_cons, List.range_succ_eq_map, List.map_map]
    refine congrArg₂ _ (by omega) (List.map_congr_left ?_)
    intro i _
    simp [Function.comp]; omega

theorem snapshotTrail_good (S : List (SettledItem α β ε)) (r : MigrationResult α β ε)
    (h : summaryInv r.summary) :
    ∀ sm ∈ snapshotTrail r S,
      sm.total = r.summary.total ∧ summaryInv sm ∧
        sm.percentage = jsRound (sm.processed * 100) sm.total ∧
        r.summary.processed + 1 ≤ sm.processed ∧
        sm.processed ≤ r.summary.processed + S.length := by
  induction S generalizing r with
  | nil => intro sm hm; simp [snapshotTrail] at hm
  | cons s S ih =>
    intro sm hm
    simp only [snapshotTrail, List.mem_cons] at hm
    rcases hm with rfl | hm
    · refine ⟨by simp, applyOutcome_summaryInv r s h, ?_, by simp, by simp⟩
      simp [applyOutcome_percentage, applyOutcome_processed]
    · obtain ⟨h1, h2, h3, h4, h5⟩ := ih (applyOutcome r s) (applyOutcome_summaryInv r s h) sm hm
      refine ⟨by simp [h1], h2, h3, ?_, ?_⟩
      · simp [applyOutcome_processed] at h4
        omega
      · simp [applyOutcome_processed] at h5
        simp [List.length_cons]; omega

@[simp] theorem settleStep_result (st : RunState α β ε) (s : SettledItem α β ε) :
    (settleStep p e st s).result = applyOutcome st.result s := rfl

@[simp] theorem settleStep_snapshots (st : RunState α β ε) (s : SettledItem α β ε) :
    (settleStep p e st s).snapshots =
      st.snapshots ++ [(applyOutcome st.result s).summary] := rfl

@[simp] theorem settleStep_opCalls (st : RunState α β ε) (s : SettledItem α β ε) :
    (settleStep p e st s).opCalls = st.opCalls := rfl

@[simp] theorem settleStep_delayCalls (st : RunState α β ε) (s : SettledItem α β ε) :
    (settleStep p e st s).delayCalls = st.delayCalls := rfl

@[simp] theorem settleStep_trace (st : RunState α β ε) (s : SettledItem α β ε) :
    (settleStep p e st s).trace = st.trace := rfl

theorem foldlSettle_result (S : List (SettledItem α β ε)) (st : RunState α β ε) :
    (S.foldl (settleStep p e) st).result = S.foldl applyOutcome st.result := by
  induction S generalizing st with
  | nil => rfl
  | cons s S ih => simp [List.foldl_cons, ih]

theorem foldlSettle_snapshots (S : List (SettledItem α β ε)) (st : RunState α β ε) :
    (S.foldl (settleStep p e) st).snapshots =
      st.snapshots ++ snapshotTrail st.result S := by
  induction S generalizing st with
  | nil => simp [snapshotTrail]
  | cons s S ih => simp [List.foldl_cons, ih, snapshotTrail, List.append_assoc]

theorem foldlSettle_opCalls (S : List (SettledItem α β ε)) (st : RunState α β ε) :
    (S.foldl (settleStep p e) st).opCalls = st.opCalls := by
  induction S generalizing st with
  | nil => rfl
  | cons s S ih => simp [List.foldl_cons, ih]

theorem foldlSettle_delayCalls (S : List (SettledItem α β ε)) (st : RunState α β ε) :
    (S.foldl (settleStep p e) st).delayCalls = st.delayCalls := by
  induction S generalizing st with
  | nil => rfl
  | cons s S ih => simp [List.foldl_cons, ih]

theorem foldlSettle_trace (S : List (SettledItem α β ε)) (st : RunState α β ε) :
    (S.foldl (settleStep p e) st).trace = st.trace := by
  induction S generalizing st with
  | nil => rfl
  | cons s S ih => simp [List.foldl_cons, ih]

theorem runBatchesAux_result (k : Nat) (d : Int) :
    ∀ (fuel : Nat) (l : List α) (st : RunState α β ε),
      (runBatchesAux proc p e σ k d fuel l st).result =
        (settledRunAux proc σ k fuel l).foldl applyOutcome st.result := by
  intro fuel
  induction fuel with
  | zero => intro l st; simp [runBatchesAux, settledRunAux]
  | succ fuel ih =>
    intro l st
    cases l with
    | nil => simp [runBatchesAux, settledRunAux]
    | cons x xs =>
      simp only [runBatchesAux, settledRunAux, ih, List.foldl_append]
      rw [apply_ite RunState.result]
      simp [foldlSettle_result]

theorem runBatchesAux_snapshots (k : Nat) (d : Int) :
    ∀ (fuel : Nat) (l : List α) (st : RunState α β ε),
      (runBatchesAux proc p e σ k d fuel l st).snapshots =
        st.snapshots ++ snapshotTrail st.result (settledRunAux proc σ k fuel l) := by
  intro fuel
  induction fuel with
  | zero => intro l st; simp [runBatchesAux, settledRunAux, snapshotTrail]
  | succ fuel ih =>
    intro l st
    cases l with
    | nil => simp [runBatchesAux, settledRunAux, snapshotTrail]
    | cons x xs =>
      simp only [runBatchesAux, settledRunAux, ih, snapshotTrail_append]
      rw [apply_ite RunState.snapshots, apply_ite RunState.result]
      simp [foldlSettle_snapshots, foldlSettle_result, List.append_assoc]

theorem settleBatch_map_attempts (batch : List α) :
    ((settleBatch proc batch).map SettledItem.attempts) =
      batch.map (fun it => (proc it).attempts) := by
  simp [settleBatch, List.map_map]
  intro a _
  rfl

theorem runBatchesAux_opCalls (k : Nat) (d : Int) :
    ∀ (fuel : Nat) (l : List α) (st : RunState α β ε), l.length ≤ fuel →
      (runBatchesAux proc p e σ k d fuel l st).opCalls =
        st.opCalls + (l.map (fun it => (proc it).attempts)).sum := by
  intro fuel
  induction fuel with
  | zero =>
    intro l st hl
    have : l = [] := List.length_eq_zero.mp (Nat.le_zero.mp hl)
    subst this; simp [runBatchesAux]
  | succ fuel ih =>
    intro l st hl
    cases l with
    | nil => simp [runBatchesAux]
    | cons x xs =>
      have hlen : ((x :: xs).drop (k + 1)).length ≤ fuel := by
        simp only [List.length_drop]
        simp only [List.length_cons] at hl ⊢
        omega
      simp only [runBatchesAux, ih _ _ hlen]
      rw [apply_ite RunState.opCalls]
      simp only [foldlSettle_opCalls, ite_self, settleBatch_map_attempts]
      conv_rhs => rw [← List.take_append_drop (k + 1) (x :: xs)]
      rw [List.map_append, List.sum_append]
      omega

theorem settledRunAux_perm (hσ : ∀ xs, List.Perm (σ xs) xs) (k : Nat) :
    ∀ (fuel : Nat) (l : List α), l.length ≤ fuel →
      List.Perm (settledRunAux proc σ k fuel l) (l.map (mkSettled proc)) := by
  intro fuel
  induction fuel with
  | zero =>
    intro l hl
    have : l = [] := List.length_eq_zero.mp (Nat.le_zero.mp hl)
    subst this; simp [settledRunAux]
  | succ fuel ih =>
    intro l hl
    cases l with
    | nil => simp [settledRunAux]
    | cons x xs =>
      have hlen : ((x :: xs).drop (k + 1)).length ≤ fuel := by
        simp only [List.length_drop]
        simp only [List.length_cons] at hl ⊢
        omega
      have hperm := List.Perm.append (hσ (settleBatch proc ((x :: xs).take (k + 1))))
        (ih _ hlen)
      simp only [settledRunAux]
      refine hperm.trans ?_
      rw [settleBatch, ← List.map_append, List.take_append_drop]

theorem settledRunAux_length (hσ : ∀ xs, List.Perm (σ xs) xs) (k : Nat)
    (fuel : Nat) (l : List α) (hl : l.length ≤ fuel) :
    (settledRunAux proc σ k fuel l).length = l.length := by
  rw [(settledRunAux_perm hσ k fuel l hl).length_eq, List.length_map]

theorem settledRunAux_countP (hσ : ∀ xs, List.Perm (σ xs) xs) (k : Nat)
    (pred : SettledItem α β ε → Bool)
    (fuel : Nat) (l : List α) (hl : l.length ≤ fuel) :
    (settledRunAux proc σ k fuel l).countP pred =
      l.countP (fun it => pred (mkSettled proc it)) := by
  rw [(settledRunAux_perm hσ k fuel l hl).countP_eq, List.countP_map]
  rfl

theorem cons_eq_map_range {κ : Type} (f : Nat → κ) (w : κ) (ws : List κ) (t : Nat)
    (h0 : w = f 0) (hws : ws = (List.range t).map (fun i => f (i + 1))) :
    w :: ws = (List.range (t + 1)).map f := by
  rw [h0, hws, List.range_succ_eq_map, List.map_cons, List.map_map]
  rfl

theorem retryLoop_attempts_bounds (call : Nat → Except ε β) (rand : Nat → ℚ) :
    ∀ (remaining attempt : Nat),
      (retryLoop call rand attempt remaining).attempts ≤ remaining ∧
      (1 ≤ remaining → 1 ≤ (retryLoop call rand attempt remaining).attempts) := by
  intro remaining
  induction remaining with
  | zero =>
    intro attempt
    have e0 : retryLoop call rand attempt 0 = ⟨.error none, 0, []⟩ := rfl
    rw [e0]
    exact ⟨le_refl 0, fun h => absurd h (by omega)⟩
  | succ m ih =>
    intro attempt
    rcases hc : call attempt with er | b
    · rcases Nat.eq_zero_or_pos m with rfl | hm
      · have e1 : retryLoop call rand attempt 1 = ⟨.error (some er), 1, []⟩ := by
          simp [retryLoop, hc]
        rw [e1]
        exact ⟨le_refl 1, fun _ => le_refl 1⟩
      · have hm0 : ¬ m = 0 := by omega
        obtain ⟨hle, hpos⟩ := ih (attempt + 1)
        have estep : retryLoop call rand attempt (m + 1) =
            ⟨(retryLoop call rand (attempt + 1) m).result,
             (retryLoop call rand (attempt + 1) m).attempts + 1,
             ((1000 : ℚ) * attempt + rand attempt * 500) ::
               (retryLoop call rand (attempt + 1) m).waits⟩ := by
          simp [retryLoop, hc, hm0]
        rw [estep]
        refine ⟨?_, fun _ => ?_⟩
        · show (retryLoop call rand (attempt + 1) m).attempts + 1 ≤ m + 1
          omega
        · show 1 ≤ (retryLoop call rand (attempt + 1) m).attempts + 1
          omega
    · have e2 : retryLoop call rand attempt (m + 1) = ⟨.ok b, 1, []⟩ := by
        simp [retryLoop, hc]
      rw [e2]
      refine ⟨?_, fun _ => ?_⟩
      · show (1 : Nat) ≤ m + 1
        omega
      · show (1 : Nat) ≤ 1
        omega

theorem retryLoop_waits_eq (call : Nat → Except ε β) (rand : Nat → ℚ) :
    ∀ (remaining attempt : Nat),
      (retryLoop call rand attempt remaining).waits =
        (List.range ((retryLoop call rand attempt remaining).attempts - 1)).map
          (fun i => (1000 : ℚ) * ((attempt + i : Nat) : ℚ) + rand (attempt + i) * 500) := by
  intro remaining
  induction remaining with
  | zero =>
    intro attempt
    have e0 : retryLoop call rand attempt 0 = ⟨.error none, 0, []⟩ := rfl
    rw [e0]
    rfl
  | succ m ih =>
    intro attempt
    rcases hc : call attempt with er | b
    · rcases Nat.eq_zero_or_pos m with rfl | hm
      · have e1 : retryLoop call rand attempt 1 = ⟨.error (some er), 1, []⟩ := by
          simp [retryLoop, hc]
        rw [e1]
        rfl
      · have hm0 : ¬ m = 0 := by omega
        have hw := ih (attempt + 1)
        have h1 : 1 ≤ (retryLoop call rand (attempt + 1) m).attempts :=
          (retryLoop_attempts_bounds call rand m (attempt + 1)).2 hm
        have estep : retryLoop call rand attempt (m + 1) =
            ⟨(retryLoop call rand (attempt + 1) m).result,
             (retryLoop call rand (attempt + 1) m).attempts + 1,
             ((1000 : ℚ) * attempt + rand attempt * 500) ::
               (retryLoop call rand (attempt + 1) m).waits⟩ := by
          simp [retryLoop, hc, hm0]
        rw [estep]
        show ((1000 : ℚ) * attempt + rand attempt * 500) ::
            (retryLoop call rand (attempt + 1) m).waits =
          (List.range ((retryLoop call rand (attempt + 1) m).attempts + 1 - 1)).map
            (fun i => (1000 : ℚ) * ((attempt + i : Nat) : ℚ) + rand (attempt + i) * 500)
        obtain ⟨t, ht⟩ : ∃ t, (retryLoop call rand (attempt + 1) m).attempts = t + 1 :=
          ⟨(retryLoop call rand (attempt + 1) m).attempts - 1, by omega⟩
        rw [ht, Nat.add_sub_cancel] at hw
        rw [ht]
        show ((1000 : ℚ) * attempt + rand attempt * 500) ::
            (retryLoop call rand (attempt + 1) m).waits =
          (List.range (t + 1)).map
            (fun i => (1000 : ℚ) * ((attempt + i : Nat) : ℚ) + rand (attempt + i) * 500)
        refine cons_eq_map_range _ _ _ t (by simp) ?_
        rw [hw]
        refine List.map_congr_left ?_
        intro i _
        have harg : attempt + 1 + i = attempt + (i + 1) := by omega
        rw [harg]
    · have e2 : retryLoop call rand attempt (m + 1) = ⟨.ok b, 1, []⟩ := by
        simp [retryLoop, hc]
      rw [e2]
      rfl

theorem retryLoop_waits (call : Nat → Except ε β) (rand : Nat → ℚ) :
    ∀ (remaining attempt : Nat),
      (retryLoop call rand attempt remaining).waits =
        (List.range ((retryLoop call rand attempt remaining).attempts - 1)).map
          (fun i => (1000 : ℚ) * ((attempt + i : Nat) : ℚ) + rand (attempt + i) * 500) ∧
      (retryLoop call rand attempt remaining).attempts ≤ remaining ∧
      (1 ≤ remaining → 1 ≤ (retryLoop call rand attempt remaining).attempts) :=
  fun remaining attempt =>
    ⟨retryLoop_waits_eq call rand remaining attempt,
     (retryLoop_attempts_bounds call rand remaining attempt).1,
     (retryLoop_attempts_bounds call rand remaining attempt).2⟩

theorem retryLoop_alwaysFail (call : Nat → Except ε β) (errs : Nat → ε)
    (h : ∀ a, call a = .error (errs a)) (rand : Nat → ℚ) :
    ∀ (remaining attempt : Nat), 1 ≤ remaining →
      (retryLoop call rand attempt remaining).result =
        .error (some (errs (attempt + remaining - 1))) ∧
      (retryLoop call rand attempt remaining).attempts = remaining := by
  intro remaining
  induction remaining with
  | zero => intro attempt h1; omega
  | succ m ih =>
    intro attempt _
    rcases Nat.eq_zero_or_pos m with rfl | hm
    · simp [retryLoop, h attempt]
    · have hm0 : ¬ m = 0 := by omega
      obtain ⟨hres, hatt⟩ := ih (attempt + 1) hm
      have hnat : attempt + 1 + m - 1 = attempt + (m + 1) - 1 := by omega
      simp only [retryLoop, h attempt, hm0, if_false]
      exact ⟨by rw [hres, hnat], by rw [hatt]⟩

theorem retryLoop_one_attempt (call : Nat → Except ε β) (rand : Nat → ℚ) (attempt : Nat) :
    (retryLoop call rand attempt 1).attempts = 1 := by
  rcases hc : call attempt with b | er <;> simp [retryLoop, hc]

theorem runBatchesAux_trace (k : Nat) (d : Int) :
    ∀ (fuel : Nat) (l : List α) (st : RunState α β ε),
      (runBatchesAux proc p e σ k d fuel l st).trace =
        st.trace ++ batchTrace k d fuel l := by
  intro fuel
  induction fuel with
  | zero => intro l st; simp [runBatchesAux, batchTrace]
  | succ fuel ih =>
    intro l st
    cases l with
    | nil => simp [runBatchesAux, batchTrace]
    | cons x xs =>
      simp only [runBatchesAux, batchTrace, ih]
      rw [apply_ite RunState.trace]
      simp only [foldlSettle_trace]
      split <;> simp [List.append_assoc]

theorem runBatchesAux_delayCalls (k : Nat) (d : Int) :
    ∀ (fuel : Nat) (l : List α) (st : RunState α β ε),
      (runBatchesAux proc p e σ k d fuel l st).delayCalls =
        st.delayCalls + delayCount k d fuel l := by
  intro fuel
  induction fuel with
  | zero => intro l st; simp [runBatchesAux, delayCount]
  | succ fuel ih =>
    intro l st
    cases l with
    | nil => simp [runBatchesAux, delayCount]
    | cons x xs =>
      simp only [runBatchesAux, delayCount, ih]
      rw [apply_ite RunState.delayCalls]
      simp only [foldlSettle_delayCalls]
      split <;> omega

theorem length_filterMap_errRecord (S : List (SettledItem α β ε)) :
    (S.filterMap errRecord).length = S.countP (fun s => !outcomeOk s.outcome) := by
  induction S with
  | nil => rfl
  | cons s S ih =>
    rcases s with ⟨it, out, att⟩
    rcases out with er | b <;>
      simp [List.filterMap_cons, List.countP_cons, errRecord, outcomeOk, ih]

theorem countP_not_add (S : List (SettledItem α β ε)) :
    S.countP (fun s => outcomeOk s.outcome) +
      S.countP (fun s => !outcomeOk s.outcome) = S.length := by
  induction S with
  | nil => rfl
  | cons s S ih =>
    rcases hs : outcomeOk s.outcome <;>
      simp [List.countP_cons, hs] <;> omega

theorem jsRound_le_100 (pr t : Nat) (h : pr ≤ t) : jsRound (pr * 100) t ≤ 100 := by
  rcases Nat.eq_zero_or_pos t with rfl | ht
  · have hp : pr = 0 := by omega
    subst hp
    simp [jsRound]
  · have hlt : 2 * (pr * 100) + t < 2 * t * 101 := by omega
    have hdiv := Nat.div_lt_of_lt_mul hlt
    simp only [jsRound]
    exact Nat.lt_succ_iff.mp hdiv

theorem jsRound_full (t : Nat) (ht : 1 ≤ t) : jsRound (t * 100) t = 100 := by
  have h1 : 100 * (2 * t) ≤ 2 * (t * 100) + t := by omega
  have h2 : 2 * (t * 100) + t < Nat.succ 100 * (2 * t) := by
    simp only [Nat.succ_eq_add_one]
    omega
  simp only [jsRound]
  exact Nat.div_eq_of_lt_le h1 h2

theorem batchTrace_cons (k : Nat) (d : Int) (fuel : Nat) (x : α) (xs : List α) :
    batchTrace k d (fuel + 1) (x :: xs) =
      MigEvent.batch ((x :: xs).take (k + 1)) ::
        ((if k + 1 < (x :: xs).length ∧ 0 < d then [MigEvent.delay d] else []) ++
          batchTrace k d fuel ((x :: xs).drop (k + 1))) := rfl

theorem delayCount_cons (k : Nat) (d : Int) (fuel : Nat) (x : α) (xs : List α) :
    delayCount k d (fuel + 1) (x :: xs) =
      (if k + 1 < (x :: xs).length ∧ 0 < d then 1 else 0) +
        delayCount k d fuel ((x :: xs).drop (k + 1)) := rfl

theorem batchTrace_nil (k : Nat) (d : Int) (fuel : Nat) :
    batchTrace (α := α) k d fuel [] = [] := by
  cases fuel <;> rfl

theorem delayCount_nil (k : Nat) (d : Int) (fuel : Nat) :
    delayCount (α := α) k d fuel [] = 0 := by
  cases fuel <;> rfl

theorem encryptMigration_result (deepEncrypt : α → Option γ → Nat → Except ε β)
    (dataArray : List α) (pass : String) (options : MigrationOptions α γ ε)
    (rand : α → Nat → ℚ) (σ : List (SettledItem α β ε) → List (SettledItem α β ε)) :
    (encryptMigration deepEncrypt dataArray pass options rand σ).result =
      (settledRunAux (encryptProc deepEncrypt options rand) σ
          ((safeBatchSize (options.batchSize.getD 10)).toNat - 1)
          dataArray.length dataArray).foldl applyOutcome
        (initialState dataArray.length).result := by
  rw [encryptMigration, runBatchesAux_result]

theorem encryptMigration_snapshots (deepEncrypt : α → Option γ → Nat → Except ε β)
    (dataArray : List α) (pass : String) (options : MigrationOptions α γ ε)
    (rand : α → Nat → ℚ) (σ : List (SettledItem α β ε) → List (SettledItem α β ε)) :
    (encryptMigration deepEncrypt dataArray pass options rand σ).snapshots =
      snapshotTrail (initialState (α := α) (β := β) (ε := ε) dataArray.length).result
        (settledRunAux (encryptProc deepEncrypt options rand) σ
          ((safeBatchSize (options.batchSize.getD 10)).toNat - 1)
          dataArray.length dataArray) := by
  rw [encryptMigration, runBatchesAux_snapshots]
  rfl

theorem encryptMigration_opCalls (deepEncrypt : α → Option γ → Nat → Except ε β)
    (dataArray : List α) (pass : String) (options : MigrationOptions α γ ε)
    (rand : α → Nat → ℚ) (σ : List (SettledItem α β ε) → List (SettledItem α β ε)) :
    (encryptMigration deepEncrypt dataArray pass options rand σ).opCalls =
      (dataArray.map (fun it => (encryptProc deepEncrypt options rand it).attempts)).sum := by
  rw [encryptMigration, runBatchesAux_opCalls _ _ _ _ _ (le_refl _)]
  simp [initialState]

theorem encryptMigration_trace (deepEncrypt : α → Option γ → Nat → Except ε β)
    (dataArray : List α) (pass : String) (options : MigrationOptions α γ ε)
    (rand : α → Nat → ℚ) (σ : List (SettledItem α β ε) → List (SettledItem α β ε)) :
    (encryptMigration deepEncrypt dataArray pass options rand σ).trace =
      batchTrace ((safeBatchSize (options.batchSize.getD 10)).toNat - 1)
        (safeDelay (options.delayBetweenBatches.getD 1000))
        dataArray.length dataArray := by
  rw [encryptMigration, runBatchesAux_trace]
  rfl

theorem encryptMigration_delayCalls (deepEncrypt : α → Option γ → Nat → Except ε β)
    (dataArray : List α) (pass : String) (options : MigrationOptions α γ ε)
    (rand : α → Nat → ℚ) (σ : List (SettledItem α β ε) → List (SettledItem α β ε)) :
    (encryptMigration deepEncrypt dataArray pass options rand σ).delayCalls =
      delayCount ((safeBatchSize (options.batchSize.getD 10)).toNat - 1)
        (safeDelay (options.delayBetweenBatches.getD 1000))
        dataArray.length dataArray := by
  rw [encryptMigration, runBatchesAux_delayCalls]
  simp [initialState]

theorem encryptMigration_snapshot_getD (deepEncrypt : α → Option γ → Nat → Except ε β)
    (dataArray : List α) (pass : String) (options : MigrationOptions α γ ε)
    (rand : α → Nat → ℚ)
    (σ : List (SettledItem α β ε) → List (SettledItem α β ε))
    (hσ : ∀ xs, List.Perm (σ xs) xs) (i : Nat) (hi : i < dataArray.length)
    (d : MigrationProgress) :
    ((encryptMigration deepEncrypt dataArray pass options rand σ).snapshots.getD
        i d).processed = i + 1 ∧
    ((encryptMigration deepEncrypt dataArray pass options rand σ).snapshots.getD
        i d).percentage = jsRound ((i + 1) * 100) dataArray.length ∧
    (encryptMigration deepEncrypt dataArray pass options rand σ).result.summary.total =
      dataArray.length := by
  have hlen : (settledRunAux (encryptProc deepEncrypt options rand) σ
      ((safeBatchSize (options.batchSize.getD 10)).toNat - 1)
      dataArray.length dataArray).length = dataArray.length :=
    settledRunAux_length hσ _ _ _ (le_refl _)
  have hsl : (encryptMigration deepEncrypt dataArray pass options rand σ).snapshots.length =
      dataArray.length := by
    rw [encryptMigration_snapshots, snapshotTrail_length, hlen]
  have hlt : i < (encryptMigration deepEncrypt dataArray pass options rand σ).snapshots.length := by
    rw [hsl]; exact hi
  have hmap : (encryptMigration deepEncrypt dataArray pass options rand σ).snapshots.map
      MigrationProgress.processed = (List.range dataArray.length).map (fun j => j + 1) := by
    rw [encryptMigration_snapshots, snapshotTrail_map_processed, hlen]
    refine List.map_congr_left ?_
    intro j _
    simp [initialState]
  have hgd : (encryptMigration deepEncrypt dataArray pass options rand σ).snapshots.getD i d =
      (encryptMigration deepEncrypt dataArray pass options rand σ).snapshots[i] := by
    rw [List.getD_eq_getElem?_getD, List.getElem?_eq_getElem hlt]
    rfl
  have h1 : ((encryptMigration deepEncrypt dataArray pass options rand σ).snapshots.map
      MigrationProgress.processed).getD i 0 = i + 1 := by
    rw [hmap, List.getD_eq_getElem?_getD, List.getElem?_map, List.getElem?_range hi]
    rfl
  have h2 : ((encryptMigration deepEncrypt dataArray pass options rand σ).snapshots.map
      MigrationProgress.processed).getD i 0 =
      ((encryptMigration deepEncrypt dataArray pass options rand σ).snapshots.getD
        i d).processed := by
    rw [List.getD_eq_getElem?_getD, List.getElem?_map, List.getElem?_eq_getElem hlt, hgd]
    rfl
  have hpro : ((encryptMigration deepEncrypt dataArray pass options rand σ).snapshots.getD
      i d).processed = i + 1 := by
    rw [← h2, h1]
  have hmem : (encryptMigration deepEncrypt dataArray pass options rand σ).snapshots.getD i d ∈
      (encryptMigration deepEncrypt dataArray pass options rand σ).snapshots := by
    rw [hgd]
    exact List.getElem_mem hlt
  rw [encryptMigration_snapshots] at hmem
  obtain ⟨ht, hsi, hpct, hlo, hhi⟩ := snapshotTrail_good _ _
    (by simp [initialState, summaryInv]) _ hmem
  rw [← encryptMigration_snapshots deepEncrypt dataArray pass options rand σ] at ht hpct
  have htot : ((encryptMigration deepEncrypt dataArray pass options rand σ).snapshots.getD
      i d).total = dataArray.length := by
    rw [ht]
    rfl
  refine ⟨hpro, ?_, ?_⟩
  · rw [hpct, hpro, htot]
  · rw [encryptMigration_result, foldl_applyOutcome_total]
    simp [initialState]

theorem countP_not {κ : Type} (l : List κ) (pr : κ → Bool) :
    l.countP pr + l.countP (fun x => !pr x) = l.length := by
  induction l with
  | nil => rfl
  | cons x l ih =>
    rcases hx : pr x <;> simp [List.countP_cons, hx] <;> omega

theorem applyOutcome_phases (r : MigrationResult α β ε) (s : SettledItem α β ε) :
    applyOutcome r s = finalizeResult (classifyResult r s) := by
  rcases s with ⟨it, out, att⟩; cases out <;> rfl

theorem settleStep_phases (st : RunState α β ε) (s : SettledItem α β ε) :
    settleStep p e st s = phaseB p (phaseA e st s) := by
  rcases s with ⟨it, out, att⟩; cases out <;> rfl

theorem classifyResult_total (r : MigrationResult α β ε) (s : SettledItem α β ε) :
    (classifyResult r s).summary.total = r.summary.total := by
  rcases s with ⟨it, out, att⟩; cases out <;> simp [classifyResult]

theorem classifyResult_processed (r : MigrationResult α β ε) (s : SettledItem α β ε) :
    (classifyResult r s).summary.processed = r.summary.processed := by
  rcases s with ⟨it, out, att⟩; cases out <;> simp [classifyResult]

theorem classifyResult_successful (r : MigrationResult α β ε) (s : SettledItem α β ε) :
    (classifyResult r s).summary.successful =
      r.summary.successful + (if outcomeOk s.outcome then 1 else 0) := by
  rcases s with ⟨it, out, att⟩; cases out <;> simp [classifyResult, outcomeOk]

theorem classifyResult_failed (r : MigrationResult α β ε) (s : SettledItem α β ε) :
    (classifyResult r s).summary.failed =
      r.summary.failed + (if outcomeOk s.outcome then 0 else 1) := by
  rcases s with ⟨it, out, att⟩; cases out <;> simp [classifyResult, outcomeOk]

theorem classifyResult_sf (r : MigrationResult α β ε) (s : SettledItem α β ε) :
    (classifyResult r s).summary.successful + (classifyResult r s).summary.failed =
      r.summary.successful + r.summary.failed + 1 := by
  rcases s with ⟨it, out, att⟩; cases out <;> simp only [classifyResult] <;> omega

theorem finalizeResult_total (r : MigrationResult α β ε) :
    (finalizeResult r).summary.total = r.summary.total := rfl

theorem finalizeResult_processed (r : MigrationResult α β ε) :
    (finalizeResult r).summary.processed = r.summary.processed + 1 := rfl

theorem finalizeResult_successful (r : MigrationResult α β ε) :
    (finalizeResult r).summary.successful = r.summary.successful := rfl

theorem finalizeResult_failed (r : MigrationResult α β ε) :
    (finalizeResult r).summary.failed = r.summary.failed := rfl

theorem phaseA_result (st : RunState α β ε) (s : SettledItem α β ε) :
    (phaseA e st s).result = classifyResult st.result s := rfl

theorem phaseA_snapshots (st : RunState α β ε) (s : SettledItem α β ε) :
    (phaseA e st s).snapshots = st.snapshots := rfl

theorem phaseA_opCalls (st : RunState α β ε) (s : SettledItem α β ε) :
    (phaseA e st s).opCalls = st.opCalls := rfl

theorem phaseA_delayCalls (st : RunState α β ε) (s : SettledItem α β ε) :
    (phaseA e st s).delayCalls = st.delayCalls := rfl

theorem phaseA_trace (st : RunState α β ε) (s : SettledItem α β ε) :
    (phaseA e st s).trace = st.trace := rfl

theorem phaseB_result (st : RunState α β ε) :
    (phaseB p st).result = finalizeResult st.result := rfl

theorem phaseB_snapshots (st : RunState α β ε) :
    (phaseB p st).snapshots = st.snapshots ++ [(finalizeResult st.result).summary] := rfl

theorem phaseB_opCalls (st : RunState α β ε) :
    (phaseB p st).opCalls = st.opCalls := rfl

theorem phaseB_delayCalls (st : RunState α β ε) :
    (phaseB p st).delayCalls = st.delayCalls := rfl

theorem phaseB_trace (st : RunState α β ε) :
    (phaseB p st).trace = st.trace := rfl

theorem finalizeCount_nil :
    finalizeCount (α := α) (β := β) (ε := ε) [] = 0 := rfl

theorem classifyCount_nil :
    classifyCount (α := α) (β := β) (ε := ε) [] = 0 := rfl

theorem finalizeCount_cons_classify (s : SettledItem α β ε)
    (ev : List (MicroEvent α β ε)) :
    finalizeCount (MicroEvent.classify s :: ev) = finalizeCount ev := by
  simp [finalizeCount, List.countP_cons]

theorem finalizeCount_cons_finalize (ev : List (MicroEvent α β ε)) :
    finalizeCount (MicroEvent.finalize :: ev) = finalizeCount ev + 1 := by
  simp [finalizeCount, List.countP_cons]

theorem classifyCount_cons_classify (s : SettledItem α β ε)
    (ev : List (MicroEvent α β ε)) :
    classifyCount (MicroEvent.classify s :: ev) = classifyCount ev + 1 := by
  simp [classifyCount, List.countP_cons]

theorem classifyCount_cons_finalize (ev : List (MicroEvent α β ε)) :
    classifyCount (MicroEvent.finalize :: ev) = classifyCount ev := by
  simp [classifyCount, List.countP_cons]

theorem classifiedItems_cons_classify (s : SettledItem α β ε)
    (ev : List (MicroEvent α β ε)) :
    classifiedItems (MicroEvent.classify s :: ev) = s :: classifiedItems ev := by
  simp [classifiedItems, List.filterMap_cons]

theorem classifiedItems_cons_finalize (ev : List (MicroEvent α β ε)) :
    classifiedItems (MicroEvent.finalize :: ev) = classifiedItems ev := by
  simp [classifiedItems, List.filterMap_cons]

theorem finalizeCount_append (a b : List (MicroEvent α β ε)) :
    finalizeCount (a ++ b) = finalizeCount a + finalizeCount b := by
  simp [finalizeCount, List.countP_append]

theorem classifyCount_append (a b : List (MicroEvent α β ε)) :
    classifyCount (a ++ b) = classifyCount a + classifyCount b := by
  simp [classifyCount, List.countP_append]

theorem classifiedItems_append (a b : List (MicroEvent α β ε)) :
    classifiedItems (a ++ b) = classifiedItems a ++ classifiedItems b := by
  simp [classifiedItems, List.filterMap_append]

theorem classifiedItems_map_classify (S : List (SettledItem α β ε)) :
    classifiedItems (S.map MicroEvent.classify) = S := by
  induction S with
  | nil => rfl
  | cons s S ih => rw [List.map_cons, classifiedItems_cons_classify, ih]

theorem classifiedItems_replicate (n : Nat) :
    classifiedItems (α := α) (β := β) (ε := ε)
      (List.replicate n MicroEvent.finalize) = [] := by
  induction n with
  | zero => rfl
  | succ n ih => rw [List.replicate_succ, classifiedItems_cons_finalize, ih]

theorem finalizeCount_map_classify (S : List (SettledItem α β ε)) :
    finalizeCount (S.map MicroEvent.classify) = 0 := by
  induction S with
  | nil => rfl
  | cons s S ih => rw [List.map_cons, finalizeCount_cons_classify, ih]

theorem classifyCount_map_classify (S : List (SettledItem α β ε)) :
    classifyCount (S.map MicroEvent.classify) = S.length := by
  induction S with
  | nil => rfl
  | cons s S ih => rw [List.map_cons, classifyCount_cons_classify, ih, List.length_cons]

theorem finalizeCount_replicate (n : Nat) :
    finalizeCount (α := α) (β := β) (ε := ε)
      (List.replicate n MicroEvent.finalize) = n := by
  induction n with
  | zero => rfl
  | succ n ih => rw [List.replicate_succ, finalizeCount_cons_finalize, ih]

theorem classifyCount_replicate (n : Nat) :
    classifyCount (α := α) (β := β) (ε := ε)
      (List.replicate n MicroEvent.finalize) = 0 := by
  induction n with
  | zero => rfl
  | succ n ih => rw [List.replicate_succ, classifyCount_cons_finalize, ih]

theorem finalizeCount_take_le (ev : List (MicroEvent α β ε)) (n : Nat) :
    finalizeCount (ev.take n) ≤ finalizeCount ev := by
  simp only [finalizeCount]
  exact List.Sublist.countP_le _ (List.take_sublist n ev)

theorem classifyCount_take_le (ev : List (MicroEvent α β ε)) (n : Nat) :
    classifyCount (ev.take n) ≤ classifyCount ev := by
  simp only [classifyCount]
  exact List.Sublist.countP_le _ (List.take_sublist n ev)

theorem settleBatch_length (batch : List α) :
    (settleBatch proc batch).length = batch.length := by
  simp [settleBatch]

theorem runMicro_total : ∀ (ev : List (MicroEvent α β ε)) (st : RunState α β ε),
    (runMicro p e st ev).result.summary.total = st.result.summary.total := by
  intro ev
  induction ev with
  | nil => intro st; rfl
  | cons x rest ih =>
    intro st
    cases x with
    | classify s =>
      simp only [runMicro]
      rw [ih, phaseA_result, classifyResult_total]
    | finalize =>
      simp only [runMicro]
      rw [ih, phaseB_result, finalizeResult_total]

theorem runMicro_processed : ∀ (ev : List (MicroEvent α β ε)) (st : RunState α β ε),
    (runMicro p e st ev).result.summary.processed =
      st.result.summary.processed + finalizeCount ev := by
  intro ev
  induction ev with
  | nil => intro st; simp [runMicro, finalizeCount]
  | cons x rest ih =>
    intro st
    cases x with
    | classify s =>
      simp only [runMicro]
      rw [ih, finalizeCount_cons_classify, phaseA_result, classifyResult_processed]
    | finalize =>
      simp only [runMicro]
      rw [ih, finalizeCount_cons_finalize, phaseB_result, finalizeResult_processed]
      omega

theorem runMicro_successful : ∀ (ev : List (MicroEvent α β ε)) (st : RunState α β ε),
    (runMicro p e st ev).result.summary.successful =
      st.result.summary.successful +
        (classifiedItems ev).countP (fun s => outcomeOk s.outcome) := by
  intro ev
  induction ev with
  | nil => intro st; simp [runMicro, classifiedItems]
  | cons x rest ih =>
    intro st
    cases x with
    | classify s =>
      simp only [runMicro]
      rw [ih, classifiedItems_cons_classify, List.countP_cons, phaseA_result,
        classifyResult_successful]
      rcases h : outcomeOk s.outcome <;> simp [h] <;> omega
    | finalize =>
      simp only [runMicro]
      rw [ih, classifiedItems_cons_finalize, phaseB_result, finalizeResult_successful]

theorem runMicro_failed : ∀ (ev : List (MicroEvent α β ε)) (st : RunState α β ε),
    (runMicro p e st ev).result.summary.failed =
      st.result.summary.failed +
        (classifiedItems ev).countP (fun s => !outcomeOk s.outcome) := by
  intro ev
  induction ev with
  | nil => intro st; simp [runMicro, classifiedItems]
  | cons x rest ih =>
    intro st
    cases x with
    | classify s =>
      simp only [runMicro]
      rw [ih, classifiedItems_cons_classify, List.countP_cons, phaseA_result,
        classifyResult_failed]
      rcases h : outcomeOk s.outcome <;> simp [h] <;> omega
    | finalize =>
      simp only [runMicro]
      rw [ih, classifiedItems_cons_finalize, phaseB_result, finalizeResult_failed]

theorem runMicro_snapshots_length :
    ∀ (ev : List (MicroEvent α β ε)) (st : RunState α β ε),
      (runMicro p e st ev).snapshots.length =
        st.snapshots.length + finalizeCount ev := by
  intro ev
  induction ev with
  | nil => intro st; simp [runMicro, finalizeCount]
  | cons x rest ih =>
    intro st
    cases x with
    | classify s =>
      simp only [runMicro]
      rw [ih, phaseA_snapshots, finalizeCount_cons_classify]
    | finalize =>
      simp only [runMicro]
      rw [ih, phaseB_snapshots, finalizeCount_cons_finalize, List.length_append]
      simp only [List.length_cons, List.length_nil]
      omega

theorem runMicro_snapshots_map :
    ∀ (ev : List (MicroEvent α β ε)) (st : RunState α β ε),
      (runMicro p e st ev).snapshots.map MigrationProgress.processed =
        st.snapshots.map MigrationProgress.processed ++
          (List.range (finalizeCount ev)).map
            (fun i => st.result.summary.processed + i + 1) := by
  intro ev
  induction ev with
  | nil => intro st; simp [runMicro, finalizeCount]
  | cons x rest ih =>
    intro st
    cases x with
    | classify s =>
      simp only [runMicro]
      rw [ih, phaseA_snapshots, finalizeCount_cons_classify, phaseA_result,
        classifyResult_processed]
    | finalize =>
      simp only [runMicro]
      rw [ih, phaseB_snapshots, finalizeCount_cons_finalize, phaseB_result,
        finalizeResult_processed, List.map_append, List.append_assoc]
      congr 1
      rw [List.map_cons, List.map_nil, List.singleton_append]
      refine cons_eq_map_range (fun i => st.result.summary.processed + i + 1) _ _ _
        ?_ ?_
      · simp [finalizeResult_processed]
      · refine List.map_congr_left ?_
        intro i _
        show st.result.summary.processed + 1 + i + 1 =
          st.result.summary.processed + (i + 1) + 1
        omega

theorem runMicro_good : ∀ (ev : List (MicroEvent α β ε)) (st : RunState α β ε),
    (∀ n, finalizeCount (ev.take n) + st.result.summary.processed ≤
        classifyCount (ev.take n) +
          (st.result.summary.successful + st.result.summary.failed)) →
    ∀ sm ∈ (runMicro p e st ev).snapshots,
      sm ∈ st.snapshots ∨
        (sm.processed ≤ sm.successful + sm.failed ∧
          sm.total = st.result.summary.total) := by
  intro ev
  induction ev with
  | nil =>
    intro st _ sm hm
    exact Or.inl hm
  | cons x rest ih =>
    intro st hH sm hm
    cases x with
    | classify s =>
      simp only [runMicro] at hm
      have hH1 : ∀ n,
          finalizeCount (rest.take n) + (phaseA e st s).result.summary.processed ≤
            classifyCount (rest.take n) +
              ((phaseA e st s).result.summary.successful +
                (phaseA e st s).result.summary.failed) := by
        intro n
        have h := hH (n + 1)
        rw [List.take_succ_cons, finalizeCount_cons_classify,
          classifyCount_cons_classify] at h
        have hp : (phaseA e st s).result.summary.processed =
            st.result.summary.processed := by
          rw [phaseA_result, classifyResult_processed]
        have hsf : (phaseA e st s).result.summary.successful +
            (phaseA e st s).result.summary.failed =
            st.result.summary.successful + st.result.summary.failed + 1 := by
          rw [phaseA_result]
          exact classifyResult_sf st.result s
        rw [hp, hsf]
        omega
      rcases ih (phaseA e st s) hH1 sm hm with h | ⟨g1, g2⟩
      · rw [phaseA_snapshots] at h
        exact Or.inl h
      · right
        rw [phaseA_result, classifyResult_total] at g2
        exact ⟨g1, g2⟩
    | finalize =>
      simp only [runMicro] at hm
      have hlt : st.result.summary.processed + 1 ≤
          st.result.summary.successful + st.result.summary.failed := by
        have h := hH (0 + 1)
        rw [List.take_succ_cons, List.take_zero, finalizeCount_cons_finalize,
          classifyCount_cons_finalize, finalizeCount_nil, classifyCount_nil] at h
        omega
      have hH1 : ∀ n,
          finalizeCount (rest.take n) + (phaseB p st).result.summary.processed ≤
            classifyCount (rest.take n) +
              ((phaseB p st).result.summary.successful +
                (phaseB p st).result.summary.failed) := by
        intro n
        have h := hH (n + 1)
        rw [List.take_succ_cons, finalizeCount_cons_finalize,
          classifyCount_cons_finalize] at h
        have hp : (phaseB p st).result.summary.processed =
            st.result.summary.processed + 1 := by
          rw [phaseB_result, finalizeResult_processed]
        have hsu : (phaseB p st).result.summary.successful =
            st.result.summary.successful := by
          rw [phaseB_result, finalizeResult_successful]
        have hfa : (phaseB p st).result.summary.failed =
            st.result.summary.failed := by
          rw [phaseB_result, finalizeResult_failed]
        rw [hp, hsu, hfa]
        omega
      rcases ih (phaseB p st) hH1 sm hm with h | ⟨g1, g2⟩
      · rw [phaseB_snapshots] at h
        rcases List.mem_append.mp h with h' | h'
        · exact Or.inl h'
        · have hx := List.mem_singleton.mp h'
          subst hx
          right
          refine ⟨?_, ?_⟩
          · rw [finalizeResult_processed, finalizeResult_successful,
              finalizeResult_failed]
            exact hlt
          · rw [finalizeResult_total]
      · right
        rw [phaseB_result, finalizeResult_total] at g2
        exact ⟨g1, g2⟩

theorem map_range_split (c a m : Nat) :
    (List.range a).map (fun i => c + i + 1) ++
      (List.range m).map (fun i => c + a + i + 1) =
      (List.range (a + m)).map (fun i => c + i + 1) := by
  rw [List.range_add a m, List.map_append, List.map_map]
  congr 1
  refine List.map_congr_left ?_
  intro i _
  show c + a + i + 1 = c + (a + i) + 1
  omega

theorem classifyFirstSchedule_valid (pr : α → RetryOutcome β ε) :
    ValidSchedule pr (classifyFirstSchedule pr) := by
  intro batch
  simp only [classifyFirstSchedule]
  refine ⟨?_, ?_, ?_⟩
  · rw [classifiedItems_append, classifiedItems_map_classify,
      classifiedItems_replicate, List.append_nil]
  · rw [finalizeCount_append, finalizeCount_map_classify, finalizeCount_replicate,
      Nat.zero_add]
  · intro n
    rw [List.take_append_eq_append_take, finalizeCount_append, classifyCount_append]
    have h1 : finalizeCount (((settleBatch pr batch).map MicroEvent.classify).take n) =
        0 := by
      have hle := finalizeCount_take_le ((settleBatch pr batch).map MicroEvent.classify) n
      rw [finalizeCount_map_classify] at hle
      omega
    by_cases hn : n ≤ ((settleBatch pr batch).map MicroEvent.classify).length
    · have hm0 : n - ((settleBatch pr batch).map MicroEvent.classify).length = 0 := by
        omega
      rw [h1, hm0, List.take_zero, finalizeCount_nil]
      omega
    · have h2 : classifyCount ((List.replicate batch.length
          (MicroEvent.finalize (α := α) (β := β) (ε := ε))).take
            (n - ((settleBatch pr batch).map MicroEvent.classify).length)) = 0 := by
        have hle := classifyCount_take_le (List.replicate batch.length
          (MicroEvent.finalize (α := α) (β := β) (ε := ε)))
          (n - ((settleBatch pr batch).map MicroEvent.classify).length)
        rw [classifyCount_replicate] at hle
        omega
      have h3 : classifyCount (((settleBatch pr batch).map MicroEvent.classify).take n) =
          min n (settleBatch pr batch).length := by
        rw [← List.map_take, classifyCount_map_classify, List.length_take]
      have hfb : finalizeCount ((List.replicate batch.length
          (MicroEvent.finalize (α := α) (β := β) (ε := ε))).take
            (n - ((settleBatch pr batch).map MicroEvent.classify).length)) ≤
          batch.length := by
        refine le_trans (finalizeCount_take_le _ _) ?_
        rw [finalizeCount_replicate]
      have hS : (settleBatch pr batch).length = batch.length := settleBatch_length batch
      have hA : ((settleBatch pr batch).map MicroEvent.classify).length =
          (settleBatch pr batch).length := by simp
      rw [h1, h2, h3]
      omega

theorem runBatchesMicroAux_total (q : Option (MigrationProgress → Except Unit Unit))
    (f : Option (Option ε → α → Except Unit Unit))
    (sched : List α → List (MicroEvent α β ε)) (k : Nat) (d : Int) :
    ∀ (fuel : Nat) (l : List α) (st : RunState α β ε),
      (runBatchesMicroAux proc q f sched k d fuel l st).result.summary.total =
        st.result.summary.total := by
  intro fuel
  induction fuel with
  | zero => intro l st; rfl
  | succ fuel ih =>
    intro l st
    cases l with
    | nil => rfl
    | cons x xs =>
      simp only [runBatchesMicroAux, ih]
      rw [apply_ite (fun s : RunState α β ε => s.result.summary.total)]
      simp [runMicro_total]

theorem runBatchesMicroAux_processed (q : Option (MigrationProgress → Except Unit Unit))
    (f : Option (Option ε → α → Except Unit Unit))
    (sched : List α → List (MicroEvent α β ε)) (k : Nat) (d : Int)
    (hs : ValidSchedule proc sched) :
    ∀ (fuel : Nat) (l : List α) (st : RunState α β ε), l.length ≤ fuel →
      (runBatchesMicroAux proc q f sched k d fuel l st).result.summary.processed =
        st.result.summary.processed + l.length := by
  intro fuel
  induction fuel with
  | zero =>
    intro l st hle
    have hl0 : l = [] := List.length_eq_zero.mp (Nat.le_zero.mp hle)
    subst hl0
    simp [runBatchesMicroAux]
  | succ fuel ih =>
    intro l st hle
    cases l with
    | nil => simp [runBatchesMicroAux]
    | cons x xs =>
      have hlen : ((x :: xs).drop (k + 1)).length ≤ fuel := by
        simp only [List.length_drop]
        simp only [List.length_cons] at hle ⊢
        omega
      obtain ⟨hperm, hfin, hpref⟩ := hs ((x :: xs).take (k + 1))
      simp only [runBatchesMicroAux, ih _ _ hlen]
      rw [apply_ite (fun s : RunState α β ε => s.result.summary.processed)]
      simp only [ite_self, runMicro_processed, hfin]
      simp only [List.length_take, List.length_drop]
      simp only [List.length_cons] at hle ⊢
      omega

theorem runBatchesMicroAux_successful
    (q : Option (MigrationProgress → Except Unit Unit))
    (f : Option (Option ε → α → Except Unit Unit))
    (sched : List α → List (MicroEvent α β ε)) (k : Nat) (d : Int)
    (hs : ValidSchedule proc sched) :
    ∀ (fuel : Nat) (l : List α) (st : RunState α β ε), l.length ≤ fuel →
      (runBatchesMicroAux proc q f sched k d fuel l st).result.summary.successful =
        st.result.summary.successful +
          l.countP (fun it => outcomeOk (proc it).result) := by
  intro fuel
  induction fuel with
  | zero =>
    intro l st hle
    have hl0 : l = [] := List.length_eq_zero.mp (Nat.le_zero.mp hle)
    subst hl0
    simp [runBatchesMicroAux]
  | succ fuel ih =>
    intro l st hle
    cases l with
    | nil => simp [runBatchesMicroAux]
    | cons x xs =>
      have hlen : ((x :: xs).drop (k + 1)).length ≤ fuel := by
        simp only [List.length_drop]
        simp only [List.length_cons] at hle ⊢
        omega
      obtain ⟨hperm, hfin, hpref⟩ := hs ((x :: xs).take (k + 1))
      have hcnt : (classifiedItems (sched ((x :: xs).take (k + 1)))).countP
          (fun s => outcomeOk s.outcome) =
          ((x :: xs).take (k + 1)).countP (fun it => outcomeOk (proc it).result) := by
        rw [hperm.countP_eq, settleBatch, List.countP_map]
        rfl
      simp only [runBatchesMicroAux, ih _ _ hlen]
      rw [apply_ite (fun s : RunState α β ε => s.result.summary.successful)]
      simp only [ite_self, runMicro_successful, hcnt]
      conv_rhs => rw [← List.take_append_drop (k + 1) (x :: xs)]
      rw [List.countP_append]
      omega

theorem runBatchesMicroAux_failed
    (q : Option (MigrationProgress → Except Unit Unit))
    (f : Option (Option ε → α → Except Unit Unit))
    (sched : List α → List (MicroEvent α β ε)) (k : Nat) (d : Int)
    (hs : ValidSchedule proc sched) :
    ∀ (fuel : Nat) (l : List α) (st : RunState α β ε), l.length ≤ fuel →
      (runBatchesMicroAux proc q f sched k d fuel l st).result.summary.failed =
        st.result.summary.failed +
          l.countP (fun it => !outcomeOk (proc it).result) := by
  intro fuel
  induction fuel with
  | zero =>
    intro l st hle
    have hl0 : l = [] := List.length_eq_zero.mp (Nat.le_zero.mp hle)
    subst hl0
    simp [runBatchesMicroAux]
  | succ fuel ih =>
    intro l st hle
    cases l with
    | nil => simp [runBatchesMicroAux]
    | cons x xs =>
      have hlen : ((x :: xs).drop (k + 1)).length ≤ fuel := by
        simp only [List.length_drop]
        simp only [List.length_cons] at hle ⊢
        omega
      obtain ⟨hperm, hfin, hpref⟩ := hs ((x :: xs).take (k + 1))
      have hcnt : (classifiedItems (sched ((x :: xs).take (k + 1)))).countP
          (fun s => !outcomeOk s.outcome) =
          ((x :: xs).take (k + 1)).countP
            (fun it => !outcomeOk (proc it).result) := by
        rw [hperm.countP_eq, settleBatch, List.countP_map]
        rfl
      simp only [runBatchesMicroAux, ih _ _ hlen]
      rw [apply_ite (fun s : RunState α β ε => s.result.summary.failed)]
      simp only [ite_self, runMicro_failed, hcnt]
      conv_rhs => rw [← List.take_append_drop (k + 1) (x :: xs)]
      rw [List.countP_append]
      omega

theorem runBatchesMicroAux_snapshots_length
    (q : Option (MigrationProgress → Except Unit Unit))
    (f : Option (Option ε → α → Except Unit Unit))
    (sched : List α → List (MicroEvent α β ε)) (k : Nat) (d : Int)
    (hs : ValidSchedule proc sched) :
    ∀ (fuel : Nat) (l : List α) (st : RunState α β ε), l.length ≤ fuel →
      (runBatchesMicroAux proc q f sched k d fuel l st).snapshots.length =
        st.snapshots.length + l.length := by
  intro fuel
  induction fuel with
  | zero =>
    intro l st hle
    have hl0 : l = [] := List.length_eq_zero.mp (Nat.le_zero.mp hle)
    subst hl0
    simp [runBatchesMicroAux]
  | succ fuel ih =>
    intro l st hle
    cases l with
    | nil => simp [runBatchesMicroAux]
    | cons x xs =>
      have hlen : ((x :: xs).drop (k + 1)).length ≤ fuel := by
        simp only [List.length_drop]
        simp only [List.length_cons] at hle ⊢
        omega
      obtain ⟨hperm, hfin, hpref⟩ := hs ((x :: xs).take (k + 1))
      simp only [runBatchesMicroAux, ih _ _ hlen]
      rw [apply_ite (fun s : RunState α β ε => s.snapshots.length)]
      simp only [ite_self, runMicro_snapshots_length, hfin]
      simp only [List.length_take, List.length_drop]
      simp only [List.length_cons] at hle ⊢
      omega

theorem runBatchesMicroAux_snapshots_map
    (q : Option (MigrationProgress → Except Unit Unit))
    (f : Option (Option ε → α → Except Unit Unit))
    (sched : List α → List (MicroEvent α β ε)) (k : Nat) (d : Int)
    (hs : ValidSchedule proc sched) :
    ∀ (fuel : Nat) (l : List α) (st : RunState α β ε), l.length ≤ fuel →
      (runBatchesMicroAux proc q f sched k d fuel l st).snapshots.map
          MigrationProgress.processed =
        st.snapshots.map MigrationProgress.processed ++
          (List.range l.length).map
            (fun i => st.result.summary.processed + i + 1) := by
  intro fuel
  induction fuel with
  | zero =>
    intro l st hle
    have hl0 : l = [] := List.length_eq_zero.mp (Nat.le_zero.mp hle)
    subst hl0
    simp [runBatchesMicroAux]
  | succ fuel ih =>
    intro l st hle
    cases l with
    | nil => simp [runBatchesMicroAux]
    | cons x xs =>
      have hlen : ((x :: xs).drop (k + 1)).length ≤ fuel := by
        simp only [List.length_drop]
        simp only [List.length_cons] at hle ⊢
        omega
      obtain ⟨hperm, hfin, hpref⟩ := hs ((x :: xs).take (k + 1))
      simp only [runBatchesMicroAux, ih _ _ hlen]
      simp only [apply_ite (fun s : RunState α β ε => s.snapshots.map
          MigrationProgress.processed),
        apply_ite (fun s : RunState α β ε => s.result.summary.processed)]
      simp only [ite_self, runMicro_snapshots_map, runMicro_processed, hfin,
        List.append_assoc]
      congr 1
      rw [map_range_split]
      have hsum : ((x :: xs).take (k + 1)).length +
          ((x :: xs).drop (k + 1)).length = (x :: xs).length := by
        rw [List.length_take, List.length_drop]
        omega
      rw [hsum]

theorem runBatchesMicroAux_good
    (q : Option (MigrationProgress → Except Unit Unit))
    (f : Option (Option ε → α → Except Unit Unit))
    (sched : List α → List (MicroEvent α β ε)) (k : Nat) (d : Int)
    (hs : ValidSchedule proc sched) :
    ∀ (fuel : Nat) (l : List α) (st : RunState α β ε), l.length ≤ fuel →
      st.result.summary.processed =
        st.result.summary.successful + st.result.summary.failed →
      ∀ sm ∈ (runBatchesMicroAux proc q f sched k d fuel l st).snapshots,
        sm ∈ st.snapshots ∨
          (sm.processed ≤ sm.successful + sm.failed ∧
            sm.total = st.result.summary.total) := by
  intro fuel
  induction fuel with
  | zero =>
    intro l st hle hbal sm hm
    exact Or.inl hm
  | succ fuel ih =>
    intro l st hle hbal sm hm
    cases l with
    | nil => exact Or.inl hm
    | cons x xs =>
      have hlen : ((x :: xs).drop (k + 1)).length ≤ fuel := by
        simp only [List.length_drop]
        simp only [List.length_cons] at hle ⊢
        omega
      obtain ⟨hperm, hfin, hpref⟩ := hs ((x :: xs).take (k + 1))
      set b : List α := (x :: xs).take (k + 1) with hb
      set st0 : RunState α β ε := { st with
        opCalls := st.opCalls +
          ((settleBatch proc b).map SettledItem.attempts).sum,
        trace := st.trace ++ [MigEvent.batch b] } with hst0
      set st1 : RunState α β ε := runMicro q f st0 (sched b) with hst1
      set st2 : RunState α β ε :=
        (if k + 1 < (x :: xs).length ∧ 0 < d then
          { st1 with delayCalls := st1.delayCalls + 1,
                     trace := st1.trace ++ [MigEvent.delay d] }
         else st1) with hst2
      have hunfold : runBatchesMicroAux proc q f sched k d (fuel + 1) (x :: xs) st =
          runBatchesMicroAux proc q f sched k d fuel ((x :: xs).drop (k + 1)) st2 :=
        rfl
      rw [hunfold] at hm
      have h2res : st2.result = st1.result := by
        rw [hst2]; split <;> rfl
      have h2snap : st2.snapshots = st1.snapshots := by
        rw [hst2]; split <;> rfl
      have h0res : st0.result = st.result := by rw [hst0]
      have h0snap : st0.snapshots = st.snapshots := by rw [hst0]
      have h1proc : st1.result.summary.processed =
          st.result.summary.processed + b.length := by
        rw [hst1, runMicro_processed, hfin, h0res]
      have h1sf : st1.result.summary.successful + st1.result.summary.failed =
          st.result.summary.successful + st.result.summary.failed + b.length := by
        rw [hst1, runMicro_successful, runMicro_failed, h0res]
        have hsum := countP_not_add (classifiedItems (sched b))
        have hlenb : (classifiedItems (sched b)).length = b.length := by
          rw [hperm.length_eq, settleBatch_length]
        omega
      have hbal2 : st2.result.summary.processed =
          st2.result.summary.successful + st2.result.summary.failed := by
        rw [h2res, h1proc, h1sf]
        omega
      have hH : ∀ n,
          finalizeCount ((sched b).take n) + st0.result.summary.processed ≤
            classifyCount ((sched b).take n) +
              (st0.result.summary.successful + st0.result.summary.failed) := by
        intro n
        rw [h0res]
        have hc := hpref n
        omega
      rcases ih _ _ hlen hbal2 sm hm with h | ⟨g1, g2⟩
      · rw [h2snap, hst1] at h
        rcases runMicro_good (sched b) st0 hH sm h with h' | ⟨g1, g2⟩
        · rw [h0snap] at h'
          exact Or.inl h'
        · right
          rw [h0res] at g2
          exact ⟨g1, g2⟩
      · right
        rw [h2res, hst1, runMicro_total, h0res] at g2
        exact ⟨g1, g2⟩

theorem settleStep_onErrorCalls_some (cb : Option ε → α → Except Unit Unit)
    (st : RunState α β ε) (s : SettledItem α β ε) :
    (settleStep p (some cb) st s).onErrorCalls =
      st.onErrorCalls ++ (errRecord s).toList := by
  rcases s with ⟨it, out, att⟩
  cases out <;> simp [settleStep, errRecord, onErrorInvocations]

theorem foldlSettle_onErrorCalls (cb : Option ε → α → Except Unit Unit) :
    ∀ (S : List (SettledItem α β ε)) (st : RunState α β ε),
      (S.foldl (settleStep p (some cb)) st).onErrorCalls =
        st.onErrorCalls ++ S.filterMap errRecord := by
  intro S
  induction S with
  | nil => intro st; simp
  | cons s S ih =>
    intro st
    rw [List.foldl_cons, ih, settleStep_onErrorCalls_some]
    rcases hr : errRecord s with _ | rec <;>
      simp [List.filterMap_cons, hr, List.append_assoc]

theorem runBatchesAux_onErrorCalls (k : Nat) (d : Int)
    (cb : Option ε → α → Except Unit Unit) :
    ∀ (fuel : Nat) (l : List α) (st : RunState α β ε),
      (runBatchesAux proc p (some cb) σ k d fuel l st).onErrorCalls =
        st.onErrorCalls ++ (settledRunAux proc σ k fuel l).filterMap errRecord := by
  intro fuel
  induction fuel with
  | zero => intro l st; simp [runBatchesAux, settledRunAux]
  | succ fuel ih =>
    intro l st
    cases l with
    | nil => simp [runBatchesAux, settledRunAux]
    | cons x xs =>
      simp only [runBatchesAux, settledRunAux, ih]
      rw [apply_ite RunState.onErrorCalls]
      simp only [foldlSettle_onErrorCalls, ite_self]
      rw [List.filterMap_append, List.append_assoc]

theorem encryptMigration_onErrorCalls (deepEncrypt : α → Option γ → Nat → Except ε β)
    (dataArray : List α) (pass : String) (options : MigrationOptions α γ ε)
    (rand : α → Nat → ℚ) (σ : List (SettledItem α β ε) → List (SettledItem α β ε))
    (cb : Option ε → α → Except Unit Unit) (hcb : options.onError = some cb) :
    (encryptMigration deepEncrypt dataArray pass options rand σ).onErrorCalls =
      (settledRunAux (encryptProc deepEncrypt options rand) σ
          ((safeBatchSize (options.batchSize.getD 10)).toNat - 1)
          dataArray.length dataArray).filterMap errRecord := by
  rw [encryptMigration, hcb, runBatchesAux_onErrorCalls]
  simp [initialState]

end Lemmas

section Claims

/-- C10: the migration pipeline never consumes the passphrase parameter:
MigrationHelper.encryptMigration and decryptMigration produce identical
instrumented run states for any two passphrases, all other inputs equal;
the remote operation receives only the item, the exclusion options and the
attempt number. -/
theorem c10_passphrase_noninterference
    (deepEncrypt deepDecrypt : α → Option γ → Nat → Except ε β)
    (items : List α) (p1 p2 : String) (options : MigrationOptions α γ ε)
    (rand : α → Nat → ℚ)
    (σ : List (SettledItem α β ε) → List (SettledItem α β ε)) :
    encryptMigration deepEncrypt items p1 options rand σ =
      encryptMigration deepEncrypt items p2 options rand σ ∧
    decryptMigration deepDecrypt items p1 options rand σ =
      decryptMigration deepDecrypt items p2 options rand σ :=
  ⟨rfl, rfl⟩

/-- C5: on the empty array, migrateEncrypt and migrateDecrypt return
immediately with the fixed result
(successful = failed = [], summary = total 0, processed 0, successful 0,
failed 0, percentage 100), with no remote-operation invocation (opCalls 0),
no batch dispatched and no callback touched. -/
theorem c5_empty_input (deepEncrypt deepDecrypt : α → Option γ → Nat → Except ε β)
    (pass : String) (options : MigrationOptions α γ ε) (rand : α → Nat → ℚ)
    (σ : List (SettledItem α β ε) → List (SettledItem α β ε))
    (hp : pass.isEmpty = false) :
    migrateEncrypt deepEncrypt pass (MigrationInput.arr []) options rand σ =
      .ok { result := { successful := [], failed := [],
                        summary := { total := 0, processed := 0, successful := 0,
                                     failed := 0, percentage := 100 } },
            snapshots := [], callbackErrors := 0, opCalls := 0, delayCalls := 0,
            trace := [] } ∧
    migrateDecrypt deepDecrypt pass (MigrationInput.arr []) options rand σ =
      .ok { result := { successful := [], failed := [],
                        summary := { total := 0, processed := 0, successful := 0,
                                     failed := 0, percentage := 100 } },
            snapshots := [], callbackErrors := 0, opCalls := 0, delayCalls := 0,
            trace := [] } := by
  constructor <;> simp [migrateEncrypt, migrateDecrypt, hp]

/-- Witness for C5 at a concrete operation, passphrase and option set. -/
theorem c5_empty_input_witness :
    migrateEncrypt (fun (_ : Nat) (_ : Option Unit) (_ : Nat) => (.ok 0 : Except Nat Nat))
        "pw" (MigrationInput.arr []) {} (fun _ _ => 0) id =
      .ok { result := { successful := [], failed := [],
                        summary := { total := 0, processed := 0, successful := 0,
                                     failed := 0, percentage := 100 } },
            snapshots := [], callbackErrors := 0, opCalls := 0, delayCalls := 0,
            trace := [] } ∧
    migrateDecrypt (fun (_ : Nat) (_ : Option Unit) (_ : Nat) => (.ok 0 : Except Nat Nat))
        "pw" (MigrationInput.arr []) {} (fun _ _ => 0) id =
      .ok { result := { successful := [], failed := [],
                        summary := { total := 0, processed := 0, successful := 0,
                                     failed := 0, percentage := 100 } },
            snapshots := [], callbackErrors := 0, opCalls := 0, delayCalls := 0,
            trace := [] } :=
  c5_empty_input _ _ "pw" {} (fun _ _ => 0) id (by decide)

/-- C6: runs that differ only in the onProgress / onError callbacks produce
the same MigrationResult (same successful and failed sequences and counts)
and the same snapshot sequence: callback exceptions are caught by the
migration and never change an item's classification or abort the run. -/
theorem c6_callback_isolation (deepEncrypt : α → Option γ → Nat → Except ε β)
    (dataArray : List α) (pass : String) (options : MigrationOptions α γ ε)
    (rand : α → Nat → ℚ)
    (σ : List (SettledItem α β ε) → List (SettledItem α β ε))
    (p1 p2 : Option (MigrationProgress → Except Unit Unit))
    (e1 e2 : Option (Option ε → α → Except Unit Unit)) :
    (encryptMigration deepEncrypt dataArray pass
        { options with onProgress := p1, onError := e1 } rand σ).result =
      (encryptMigration deepEncrypt dataArray pass
        { options with onProgress := p2, onError := e2 } rand σ).result ∧
    (encryptMigration deepEncrypt dataArray pass
        { options with onProgress := p1, onError := e1 } rand σ).snapshots =
      (encryptMigration deepEncrypt dataArray pass
        { options with onProgress := p2, onError := e2 } rand σ).snapshots := by
  constructor
  · rw [encryptMigration_result, encryptMigration_result]
    rfl
  · rw [encryptMigration_snapshots, encryptMigration_snapshots]
    rfl

/-- C8: option sanitization before any batch starts: batchSize 0 or negative
acts as 1 and 500 acts as 100 (clamped into the interval from 1 to 100);
maxRetries is clamped into the interval from 1 to 10, and a run with
maxRetries at most 0 performs exactly one remote attempt for its item, never
zero; delayBetweenBatches is clamped to be non-negative. -/
theorem c8_option_clamping :
    (∀ b : Int, b ≤ 0 → safeBatchSize b = 1) ∧
    safeBatchSize 500 = 100 ∧
    (∀ b : Int, 1 ≤ safeBatchSize b ∧ safeBatchSize b ≤ 100) ∧
    (∀ r : Int, 1 ≤ safeRetries r ∧ safeRetries r ≤ 10) ∧
    (∀ r : Int, r ≤ 0 → safeRetries r = 1) ∧
    (∀ d : Int, 0 ≤ safeDelay d) ∧
    (∀ (deepEncrypt : α → Option γ → Nat → Except ε β) (item : α) (pass : String)
        (options : MigrationOptions α γ ε) (rand : α → Nat → ℚ)
        (σ : List (SettledItem α β ε) → List (SettledItem α β ε)) (r : Int),
        options.maxRetries = some r → r ≤ 0 →
        (encryptMigration deepEncrypt [item] pass options rand σ).opCalls = 1) := by
  refine ⟨?_, by decide, ?_, ?_, ?_, ?_, ?_⟩
  · intro b hb; simp [safeBatchSize]; omega
  · intro b; constructor <;> simp [safeBatchSize]
  · intro r; constructor <;> simp [safeRetries]
  · intro r hr; simp [safeRetries]; omega
  · intro d; simp [safeDelay]
  · intro deepE item pass options rand σ r hr hle
    rw [encryptMigration_opCalls]
    have hsr : safeRetries (options.maxRetries.getD 3) = 1 := by
      rw [hr]
      simp [safeRetries]
      omega
    simp only [List.map_cons, List.map_nil, List.sum_cons, List.sum_nil,
      encryptProc, processEncryptionWithRetry, hsr, Int.toNat_one, Nat.add_zero]
    exact retryLoop_one_attempt _ _ _

/-- Witness for C8 at concrete inputs. -/
theorem c8_option_clamping_witness :
    safeBatchSize 0 = 1 ∧ safeRetries (-5) = 1 ∧
    (encryptMigration (fun (_ : Nat) (_ : Option Unit) (_ : Nat) => (.error 7 : Except Nat Nat))
        [3] "pw" { maxRetries := some (-2) } (fun _ _ => 0) id).opCalls = 1 :=
  ⟨(c8_option_clamping (α := Nat) (β := Nat) (γ := Unit) (ε := Nat)).1 0 (by decide),
   (c8_option_clamping (α := Nat) (β := Nat) (γ := Unit) (ε := Nat)).2.2.2.2.1 (-5) (by decide),
   (c8_option_clamping (α := Nat) (β := Nat) (γ := Unit) (ε := Nat)).2.2.2.2.2.2 _ 3 "pw"
     { maxRetries := some (-2) } (fun _ _ => 0) id (-2) rfl (by decide)⟩

/-- C9: the retry helper waits 1000 ms times the attempt number plus a
jitter of Math.random() times 500 ms after every failed attempt other than
the final one: the wait list is exactly one entry per non-final attempt
(none after the last), the i-th wait (0-based) equals
1000 * (i+1) + rand(i+1) * 500, and when every random draw lies in the
interval from 0 inclusive to 1 exclusive, the i-th wait lies in the interval
from 1000 * (i+1) inclusive to 1000 * (i+1) + 500 exclusive. -/
theorem c9_backoff_schedule (deepEncrypt : α → Option γ → Nat → Except ε β)
    (item : α) (maxRetries : Nat) (excl : Option γ) (rand : Nat → ℚ) :
    (processEncryptionWithRetry deepEncrypt item maxRetries excl rand).waits =
      (List.range
          ((processEncryptionWithRetry deepEncrypt item maxRetries excl rand).attempts - 1)).map
        (fun i => (1000 : ℚ) * ((1 + i : Nat) : ℚ) + rand (1 + i) * 500) ∧
    (processEncryptionWithRetry deepEncrypt item maxRetries excl rand).waits.length =
      (processEncryptionWithRetry deepEncrypt item maxRetries excl rand).attempts - 1 ∧
    ((∀ a, 0 ≤ rand a ∧ rand a < 1) →
      ∀ i, i < (processEncryptionWithRetry deepEncrypt item maxRetries excl rand).waits.length →
        (1000 : ℚ) * ((1 + i : Nat) : ℚ) ≤
            (processEncryptionWithRetry deepEncrypt item maxRetries excl rand).waits.getD i 0 ∧
          (processEncryptionWithRetry deepEncrypt item maxRetries excl rand).waits.getD i 0 <
            (1000 : ℚ) * ((1 + i : Nat) : ℚ) + 500) := by
  obtain ⟨hw, hle, hpos⟩ :=
    retryLoop_waits (fun a => deepEncrypt item excl a) rand maxRetries 1
  rw [processEncryptionWithRetry]
  refine ⟨hw, by rw [hw, List.length_map, List.length_range], ?_⟩
  intro hrand i hi
  rw [hw, List.length_map, List.length_range] at hi
  have hget : ((List.range
        ((retryLoop (fun a => deepEncrypt item excl a) rand 1 maxRetries).attempts - 1)).map
          (fun j => (1000 : ℚ) * ((1 + j : Nat) : ℚ) + rand (1 + j) * 500)).getD i 0 =
      (1000 : ℚ) * ((1 + i : Nat) : ℚ) + rand (1 + i) * 500 := by
    rw [List.getD_eq_getElem?_getD, List.getElem?_map, List.getElem?_range hi,
      Option.map_some', Option.getD_some]
  rw [hw, hget]
  have h0 := (hrand (1 + i)).1
  have h1 := (hrand (1 + i)).2
  constructor
  · nlinarith
  · nlinarith

/-- Witness for C9: an always-failing operation with 3 retries and the
random draw fixed at one half: the first wait lies in the prescribed
interval. -/
theorem c9_backoff_schedule_witness :
    (1000 : ℚ) * ((1 + 0 : Nat) : ℚ) ≤
        (processEncryptionWithRetry
            (fun (_ : Nat) (_ : Option Unit) (a : Nat) => (.error a : Except Nat Nat))
            5 3 none (fun _ => 1/2)).waits.getD 0 0 ∧
      (processEncryptionWithRetry
          (fun (_ : Nat) (_ : Option Unit) (a : Nat) => (.error a : Except Nat Nat))
          5 3 none (fun _ => 1/2)).waits.getD 0 0 <
        (1000 : ℚ) * ((1 + 0 : Nat) : ℚ) + 500 := by
  refine (c9_backoff_schedule
      (fun (_ : Nat) (_ : Option Unit) (a : Nat) => (.error a : Except Nat Nat))
      5 3 none (fun _ => 1/2)).2.2 ?_ 0 ?_
  · intro a
    constructor <;> norm_num
  · have h3 := (retryLoop_alwaysFail
        (fun a => (.error a : Except Nat Nat)) (fun a => a) (fun _ => rfl)
        (fun _ => 1/2) 3 1 (by omega)).2
    have hlen := ((c9_backoff_schedule
        (fun (_ : Nat) (_ : Option Unit) (a : Nat) => (.error a : Except Nat Nat))
        5 3 none (fun _ => 1/2))).2.1
    rw [hlen]
    rw [processEncryptionWithRetry, h3]
    omega

/-- C4: with maxRetries 3 and an always-failing operation, the operation is
invoked exactly 3 times for the item; the thrown error is the one from the
last (third) attempt; inside a migration run the exhausted item lands in the
failed sequence with that error and the operation is not retried further
upstream (exactly 3 invocations in the whole run). -/
theorem c4_retry_exhaustion (pass : String) :
    (∀ (deepEncrypt : α → Option γ → Nat → Except ε β) (item : α) (excl : Option γ)
        (rand : Nat → ℚ) (errs : Nat → ε),
        (∀ a, deepEncrypt item excl a = .error (errs a)) →
        (processEncryptionWithRetry deepEncrypt item 3 excl rand).result =
            .error (some (errs 3)) ∧
          (processEncryptionWithRetry deepEncrypt item 3 excl rand).attempts = 3) ∧
    (∀ (deepEncrypt : α → Option γ → Nat → Except ε β) (item : α)
        (options : MigrationOptions α γ ε) (rand : α → Nat → ℚ)
        (σ : List (SettledItem α β ε) → List (SettledItem α β ε)) (errs : Nat → ε),
        (∀ excl a, deepEncrypt item excl a = .error (errs a)) →
        options.maxRetries = some 3 →
        (∀ xs, List.Perm (σ xs) xs) →
        (encryptMigration deepEncrypt [item] pass options rand σ).result.failed =
            [{ item := item, error := some (errs 3) }] ∧
          (encryptMigration deepEncrypt [item] pass options rand σ).opCalls = 3) := by
  constructor
  · intro deepE item excl rand errs hfail
    have h := retryLoop_alwaysFail (fun a => deepE item excl a) errs hfail rand 3 1 (by omega)
    rw [processEncryptionWithRetry]
    exact ⟨h.1, h.2⟩
  · intro deepE item options rand σ errs hfail hmr hσ
    have hsr : (safeRetries (options.maxRetries.getD 3)).toNat = 3 := by
      rw [hmr]; decide
    have hretry := retryLoop_alwaysFail (fun a => deepE item options.exclusionOptions a)
      errs (hfail options.exclusionOptions) (rand item) 3 1 (by omega)
    have hproc : encryptProc deepE options rand item =
        retryLoop (fun a => deepE item options.exclusionOptions a) (rand item) 1 3 := by
      rw [encryptProc, processEncryptionWithRetry, hsr]
    have hrun : settledRunAux (encryptProc deepE options rand) σ
        ((safeBatchSize (options.batchSize.getD 10)).toNat - 1) [item].length [item] =
        [mkSettled (encryptProc deepE options rand) item] := by
      simp only [List.length_cons, List.length_nil, settledRunAux, List.take_succ_cons,
        List.take_nil, List.drop_succ_cons, List.drop_nil, settleBatch, List.map_cons,
        List.map_nil, List.append_nil]
      exact List.perm_singleton.mp (hσ _)
    constructor
    · rw [encryptMigration_result, hrun, foldl_applyOutcome_failedList]
      simp only [initialState, List.filterMap_cons, List.filterMap_nil]
      rw [errRecord]
      simp only [mkSettled, hproc, hretry.1]
      rfl
    · rw [encryptMigration_opCalls]
      simp only [List.map_cons, List.map_nil, List.sum_cons, List.sum_nil, Nat.add_zero,
        hproc]
      exact hretry.2

/-- Witness for C4 at a concrete item and error sequence. -/
theorem c4_retry_exhaustion_witness :
    (processEncryptionWithRetry
        (fun (_ : Nat) (_ : Option Unit) (a : Nat) => (.error (a * 10) : Except Nat Nat))
        6 3 none (fun _ => 0)).result = .error (some 30) ∧
    (encryptMigration
        (fun (_ : Nat) (_ : Option Unit) (a : Nat) => (.error (a * 10) : Except Nat Nat))
        [6] "pw" { maxRetries := some 3 } (fun _ _ => 0) id).result.failed =
      [{ item := 6, error := some 30 }] := by
  have h := c4_retry_exhaustion (α := Nat) (β := Nat) (γ := Unit) (ε := Nat) "pw"
  constructor
  · exact (h.1 _ 6 none (fun _ => 0) (fun a => a * 10) (fun _ => rfl)).1
  · exact (h.2 _ 6 { maxRetries := some 3 } (fun _ _ => 0) id (fun a => a * 10)
      (fun _ _ => rfl) rfl (fun xs => List.Perm.refl xs)).1

/-- C1 (counterexample): the claimed invariant "at every onProgress
invocation summary.processed equals summary.successful + summary.failed"
fails on the code.  The .then/.catch handler and the .finally handler of one
item are separate microtasks, so when two items of a batch settle in the
same tick (here: two items whose processing rejects, maxRetries 1) the queue
runs both .catch handlers before either .finally, and the first onProgress
invocation observes processed = 1 while successful + failed = 2.  The drain
order used (all classifications before any finalization) is a valid schedule
of the promise machinery, as the first conjunct certifies. -/
theorem c1_aggregator_counterexample :
    ValidSchedule
      (encryptProc (fun (_ : Unit) (_ : Option Unit) (_ : Nat) =>
          (.error () : Except Unit Unit))
        { maxRetries := some 1 } (fun _ _ => 0))
      (classifyFirstSchedule
        (encryptProc (fun (_ : Unit) (_ : Option Unit) (_ : Nat) =>
            (.error () : Except Unit Unit))
          { maxRetries := some 1 } (fun _ _ => 0))) ∧
    ((encryptMigrationMicro
        (fun (_ : Unit) (_ : Option Unit) (_ : Nat) =>
          (.error () : Except Unit Unit))
        [(), ()] "pw" { maxRetries := some 1 } (fun _ _ => 0)
        (classifyFirstSchedule
          (encryptProc (fun (_ : Unit) (_ : Option Unit) (_ : Nat) =>
              (.error () : Except Unit Unit))
            { maxRetries := some 1 } (fun _ _ => 0)))).snapshots.getD 0
      ⟨0, 0, 0, 0, 0⟩).processed = 1 ∧
    ((encryptMigrationMicro
        (fun (_ : Unit) (_ : Option Unit) (_ : Nat) =>
          (.error () : Except Unit Unit))
        [(), ()] "pw" { maxRetries := some 1 } (fun _ _ => 0)
        (classifyFirstSchedule
          (encryptProc (fun (_ : Unit) (_ : Option Unit) (_ : Nat) =>
              (.error () : Except Unit Unit))
            { maxRetries := some 1 } (fun _ _ => 0)))).snapshots.getD 0
      ⟨0, 0, 0, 0, 0⟩).successful = 0 ∧
    ((encryptMigrationMicro
        (fun (_ : Unit) (_ : Option Unit) (_ : Nat) =>
          (.error () : Except Unit Unit))
        [(), ()] "pw" { maxRetries := some 1 } (fun _ _ => 0)
        (classifyFirstSchedule
          (encryptProc (fun (_ : Unit) (_ : Option Unit) (_ : Nat) =>
              (.error () : Except Unit Unit))
            { maxRetries := some 1 } (fun _ _ => 0)))).snapshots.getD 0
      ⟨0, 0, 0, 0, 0⟩).failed = 2 ∧
    (1 : Nat) ≠ 0 + 2 :=
  ⟨classifyFirstSchedule_valid _, by decide, by decide, by decide, by decide⟩

/-- C1 (amended): aggregator counter discipline for every input, outcome
pattern and microtask schedule in which each item's .finally handler runs
after its own .then/.catch handler: every summary snapshot passed to
onProgress satisfies processed ≤ successful + failed (the original equality
fails under same-tick settlements, see the counterexample); there is exactly
one snapshot per item and the processed counter takes the values
1, 2, ..., n in finalization order (each counter is bumped exactly once per
item); at completion processed equals the input length, successful + failed
equals it too, and processed equals summary.total, in particular for
non-empty inputs. -/
theorem c1_aggregator_counters (deepEncrypt : α → Option γ → Nat → Except ε β)
    (dataArray : List α) (pass : String) (options : MigrationOptions α γ ε)
    (rand : α → Nat → ℚ)
    (sched : List α → List (MicroEvent α β ε))
    (hs : ValidSchedule (encryptProc deepEncrypt options rand) sched) :
    (∀ sm ∈ (encryptMigrationMicro deepEncrypt dataArray pass options rand
        sched).snapshots,
      sm.processed ≤ sm.successful + sm.failed) ∧
    (encryptMigrationMicro deepEncrypt dataArray pass options rand
        sched).snapshots.length = dataArray.length ∧
    (encryptMigrationMicro deepEncrypt dataArray pass options rand
        sched).snapshots.map MigrationProgress.processed =
      (List.range dataArray.length).map (fun i => i + 1) ∧
    (encryptMigrationMicro deepEncrypt dataArray pass options rand
        sched).result.summary.processed = dataArray.length ∧
    (encryptMigrationMicro deepEncrypt dataArray pass options rand
        sched).result.summary.successful +
      (encryptMigrationMicro deepEncrypt dataArray pass options rand
        sched).result.summary.failed = dataArray.length ∧
    (dataArray ≠ [] →
      (encryptMigrationMicro deepEncrypt dataArray pass options rand
          sched).result.summary.processed =
        (encryptMigrationMicro deepEncrypt dataArray pass options rand
          sched).result.summary.total) := by
  have he : encryptMigrationMicro deepEncrypt dataArray pass options rand sched =
      runBatchesMicroAux (encryptProc deepEncrypt options rand)
        options.onProgress options.onError sched
        ((safeBatchSize (options.batchSize.getD 10)).toNat - 1)
        (safeDelay (options.delayBetweenBatches.getD 1000))
        dataArray.length dataArray (initialState dataArray.length) := rfl
  have hbal0 : (initialState (α := α) (β := β) (ε := ε)
        dataArray.length).result.summary.processed =
      (initialState (α := α) (β := β) (ε := ε)
        dataArray.length).result.summary.successful +
        (initialState (α := α) (β := β) (ε := ε)
          dataArray.length).result.summary.failed := by
    simp [initialState]
  refine ⟨?_, ?_, ?_, ?_, ?_, ?_⟩
  · intro sm hm
    rw [he] at hm
    rcases runBatchesMicroAux_good options.onProgress options.onError sched _ _ hs
        dataArray.length dataArray (initialState dataArray.length) (le_refl _)
        hbal0 sm hm with h | ⟨g1, _⟩
    · simp [initialState] at h
    · exact g1
  · rw [he, runBatchesMicroAux_snapshots_length options.onProgress options.onError
      sched _ _ hs dataArray.length dataArray _ (le_refl _)]
    simp [initialState]
  · rw [he, runBatchesMicroAux_snapshots_map options.onProgress options.onError
      sched _ _ hs dataArray.length dataArray _ (le_refl _)]
    simp only [initialState, List.map_nil, List.nil_append]
    refine List.map_congr_left ?_
    intro i _
    omega
  · rw [he, runBatchesMicroAux_processed options.onProgress options.onError
      sched _ _ hs dataArray.length dataArray _ (le_refl _)]
    simp [initialState]
  · rw [he, runBatchesMicroAux_successful options.onProgress options.onError
      sched _ _ hs dataArray.length dataArray _ (le_refl _),
      runBatchesMicroAux_failed options.onProgress options.onError
      sched _ _ hs dataArray.length dataArray _ (le_refl _)]
    have hnot : dataArray.countP
          (fun it => outcomeOk ((encryptProc deepEncrypt options rand) it).result) +
        dataArray.countP
          (fun it => !outcomeOk ((encryptProc deepEncrypt options rand) it).result) =
        dataArray.length := countP_not _ _
    simp only [initialState]
    omega
  · intro _
    rw [he, runBatchesMicroAux_processed options.onProgress options.onError
      sched _ _ hs dataArray.length dataArray _ (le_refl _),
      runBatchesMicroAux_total options.onProgress options.onError sched _ _]
    simp [initialState]

/-- Witness for C1 (amended): a concrete two-item run with one success and
one failure under the all-classifications-first drain order. -/
theorem c1_aggregator_counters_witness :
    (encryptMigrationMicro
        (fun (it : Nat) (_ : Option Unit) (_ : Nat) =>
          if it = 4 then (.ok 9 : Except Nat Nat) else .error 1)
        [4, 5] "pw" {} (fun _ _ => 0)
        (classifyFirstSchedule
          (encryptProc (fun (it : Nat) (_ : Option Unit) (_ : Nat) =>
              if it = 4 then (.ok 9 : Except Nat Nat) else .error 1)
            {} (fun _ _ => 0)))).result.summary.processed = [4, 5].length :=
  (c1_aggregator_counters
    (fun (it : Nat) (_ : Option Unit) (_ : Nat) =>
      if it = 4 then (.ok 9 : Except Nat Nat) else .error 1)
    [4, 5] "pw" {} (fun _ _ => 0)
    (classifyFirstSchedule
      (encryptProc (fun (it : Nat) (_ : Option Unit) (_ : Nat) =>
          if it = 4 then (.ok 9 : Except Nat Nat) else .error 1)
        {} (fun _ _ => 0)))
    (classifyFirstSchedule_valid _)).2.2.2.1

/-- C3 (counterexample): the claim that summary.percentage equals 100 only
when processed equals total fails on the code at an input of 256 items: when
the 255th item settles, percentage is Math.round(255/256*100) = 100 even
though processed (255) is below total (256).  The float arithmetic at this
input is exact (255/256 and its product with 100 are dyadic), so the
rational rounding model agrees with the source. -/
theorem c3_percentage_counterexample :
    ((encryptMigration
        (fun (_ : Unit) (_ : Option Unit) (_ : Nat) => (.ok () : Except Unit Unit))
        (List.replicate 256 ()) "pw" { batchSize := some 100 } (fun _ _ => 0)
        id).snapshots.getD 254 ⟨0, 0, 0, 0, 0⟩).percentage = 100 ∧
    ((encryptMigration
        (fun (_ : Unit) (_ : Option Unit) (_ : Nat) => (.ok () : Except Unit Unit))
        (List.replicate 256 ()) "pw" { batchSize := some 100 } (fun _ _ => 0)
        id).snapshots.getD 254 ⟨0, 0, 0, 0, 0⟩).processed = 255 ∧
    (encryptMigration
        (fun (_ : Unit) (_ : Option Unit) (_ : Nat) => (.ok () : Except Unit Unit))
        (List.replicate 256 ()) "pw" { batchSize := some 100 } (fun _ _ => 0)
        id).result.summary.total = 256 := by
  obtain ⟨hp, hq, ht⟩ := encryptMigration_snapshot_getD
    (fun (_ : Unit) (_ : Option Unit) (_ : Nat) => (.ok () : Except Unit Unit))
    (List.replicate 256 ()) "pw" { batchSize := some 100 } (fun _ _ => 0) id
    (fun xs => List.Perm.refl xs) 254 (by rw [List.length_replicate]; omega) ⟨0, 0, 0, 0, 0⟩
  have hlen : (List.replicate 256 ()).length = 256 := by rw [List.length_replicate]
  refine ⟨?_, ?_, ?_⟩
  · rw [hq, hlen]
    decide
  · rw [hp]
  · rw [ht, hlen]

/-- C3 (amended): after each item settles, summary.percentage equals
Math.round(processed / total * 100) computed exactly on rationals, always
lies in the interval from 0 to 100, and processed = total forces
percentage = 100; the converse implication does not hold in general (see the
256-item counterexample), so the amended claim keeps only this direction. -/
theorem c3_percentage_amended (deepEncrypt : α → Option γ → Nat → Except ε β)
    (dataArray : List α) (pass : String) (options : MigrationOptions α γ ε)
    (rand : α → Nat → ℚ)
    (σ : List (SettledItem α β ε) → List (SettledItem α β ε))
    (hσ : ∀ xs, List.Perm (σ xs) xs) :
    ∀ sm ∈ (encryptMigration deepEncrypt dataArray pass options rand σ).snapshots,
      sm.percentage = jsRound (sm.processed * 100) sm.total ∧
      sm.percentage ≤ 100 ∧
      (sm.processed = sm.total → sm.percentage = 100) := by
  intro sm hm
  rw [encryptMigration_snapshots] at hm
  have hlen : (settledRunAux (encryptProc deepEncrypt options rand) σ
      ((safeBatchSize (options.batchSize.getD 10)).toNat - 1)
      dataArray.length dataArray).length = dataArray.length :=
    settledRunAux_length hσ _ _ _ (le_refl _)
  have hinv0 : summaryInv (initialState (α := α) (β := β) (ε := ε)
      dataArray.length).result.summary := by
    simp [initialState, summaryInv]
  obtain ⟨ht, hsi, hpct, hlo, hhi⟩ := snapshotTrail_good _ _ hinv0 sm hm
  simp only [initialState] at ht hlo hhi
  rw [hlen] at hhi
  have hple : sm.processed ≤ sm.total := by rw [ht]; omega
  refine ⟨hpct, ?_, ?_⟩
  · rw [hpct]
    exact jsRound_le_100 sm.processed sm.total hple
  · intro hpt
    rw [hpct, hpt]
    exact jsRound_full sm.total (by omega)

/-- Witness for C3 (amended): the sole snapshot of a one-item run. -/
theorem c3_percentage_amended_witness :
    ((100 : Nat) = jsRound (1 * 100) 1) ∧ (100 : Nat) ≤ 100 ∧
      ((1 : Nat) = 1 → (100 : Nat) = 100) :=
  c3_percentage_amended
    (fun (_ : Nat) (_ : Option Unit) (_ : Nat) => (.ok 1 : Except Nat Nat))
    [7] "pw" {} (fun _ _ => 0) id (fun xs => List.Perm.refl xs)
    ⟨1, 1, 1, 0, 100⟩ (by decide)

/-- C2: per-item failures never escalate: for any array input the migration
entry point returns a MigrationResult (Except.ok) in which the failed
sequence holds exactly the retry-exhausted items, each recorded together
with the error of its final attempt (as a permutation of the per-item
outcomes, since settlement order within a batch is unspecified), counted
exactly in summary.failed; whenever the onError callback is configured it is
invoked once per retry-exhausted item with precisely that (error, item)
pair, so the onError invocation log coincides with the failed sequence;
only the pre-flight configuration check escalates (a non-array input fails
with the CipherionError before any remote call). -/
theorem c2_error_containment (deepEncrypt : α → Option γ → Nat → Except ε β)
    (pass : String) (options : MigrationOptions α γ ε) (rand : α → Nat → ℚ)
    (σ : List (SettledItem α β ε) → List (SettledItem α β ε))
    (hσ : ∀ xs, List.Perm (σ xs) xs) (hp : pass.isEmpty = false) :
    migrateEncrypt deepEncrypt pass MigrationInput.notArray options rand σ =
      .error { message := "dataArray must be an array", statusCode := 400 } ∧
    (∀ items : List α, ∃ st,
        migrateEncrypt deepEncrypt pass (MigrationInput.arr items) options rand σ =
          .ok st ∧
        List.Perm st.result.failed
          (items.filterMap (fun it =>
            match (encryptProc deepEncrypt options rand it).result with
            | .error er => some { item := it, error := er }
            | .ok _ => none)) ∧
        st.result.failed.length =
          items.countP
            (fun it => !outcomeOk (encryptProc deepEncrypt options rand it).result) ∧
        st.result.summary.failed =
          items.countP
            (fun it => !outcomeOk (encryptProc deepEncrypt options rand it).result) ∧
        (∀ cb, options.onError = some cb →
          st.onErrorCalls = st.result.failed)) := by
  constructor
  · simp [migrateEncrypt, hp]
  · intro items
    rcases items with _ | ⟨x, xs⟩
    · refine ⟨⟨⟨[], [], ⟨0, 0, 0, 0, 100⟩⟩, [], 0, 0, 0, [], []⟩,
        by simp [migrateEncrypt, hp], by simp, by simp, by simp,
        fun cb _ => rfl⟩
    · have hfl : (encryptMigration deepEncrypt (x :: xs) pass options rand
          σ).result.failed =
          (settledRunAux (encryptProc deepEncrypt options rand) σ
            ((safeBatchSize (options.batchSize.getD 10)).toNat - 1)
            (x :: xs).length (x :: xs)).filterMap errRecord := by
        rw [encryptMigration_result, foldl_applyOutcome_failedList]
        simp [initialState]
      refine ⟨encryptMigration deepEncrypt (x :: xs) pass options rand σ,
        by simp [migrateEncrypt, hp], ?_, ?_, ?_, ?_⟩
      · rw [hfl]
        have hpm : List.Perm
            ((settledRunAux (encryptProc deepEncrypt options rand) σ
                ((safeBatchSize (options.batchSize.getD 10)).toNat - 1)
                (x :: xs).length (x :: xs)).filterMap errRecord)
            (((x :: xs).map
                (mkSettled (encryptProc deepEncrypt options rand))).filterMap
              errRecord) :=
          (settledRunAux_perm hσ
            ((safeBatchSize (options.batchSize.getD 10)).toNat - 1)
            (x :: xs).length (x :: xs) (le_refl _)).filterMap errRecord
        refine hpm.trans ?_
        rw [List.filterMap_map]
        have hfun : (errRecord ∘ mkSettled (encryptProc deepEncrypt options rand)) =
            (fun it =>
              match (encryptProc deepEncrypt options rand it).result with
              | .error er => some { item := it, error := er }
              | .ok _ => none) := by
          funext it
          rfl
        rw [hfun]
      · rw [hfl, length_filterMap_errRecord,
          settledRunAux_countP hσ _ _ _ _ (le_refl _)]
        simp [mkSettled]
      · rw [encryptMigration_result, foldl_applyOutcome_failedCount,
          settledRunAux_countP hσ _ _ _ _ (le_refl _)]
        simp [initialState, mkSettled]
      · intro cb hcb
        rw [encryptMigration_onErrorCalls deepEncrypt (x :: xs) pass options rand
          σ cb hcb, hfl]

/-- Witness for C2: the non-array pre-flight failure at concrete inputs. -/
theorem c2_error_containment_witness :
    migrateEncrypt (fun (_ : Nat) (_ : Option Unit) (_ : Nat) => (.ok 0 : Except Nat Nat))
        "pw" MigrationInput.notArray {} (fun _ _ => 0) id =
      .error { message := "dataArray must be an array", statusCode := 400 } :=
  (c2_error_containment (fun (_ : Nat) (_ : Option Unit) (_ : Nat) => (.ok 0 : Except Nat Nat))
    "pw" {} (fun _ _ => 0) id (fun xs => List.Perm.refl xs) (by decide)).1

/-- C7: 25 items with batchSize 10 (and the default, positive, inter-batch
delay) are processed as exactly 3 consecutive batches, the first 10, the
next 10 and the final 5 items of the input in order, with the whole-batch
settle barrier built into each batch event; the inter-batch delay is invoked
exactly twice, once after each non-final batch and never after the last. -/
theorem c7_batch_partition (deepEncrypt : α → Option γ → Nat → Except ε β)
    (dataArray : List α) (pass : String) (options : MigrationOptions α γ ε)
    (rand : α → Nat → ℚ)
    (σ : List (SettledItem α β ε) → List (SettledItem α β ε))
    (h25 : dataArray.length = 25) (hbs : options.batchSize = some 10)
    (hdel : options.delayBetweenBatches = none) :
    (encryptMigration deepEncrypt dataArray pass options rand σ).trace =
      [MigEvent.batch (dataArray.take 10), MigEvent.delay 1000,
       MigEvent.batch ((dataArray.drop 10).take 10), MigEvent.delay 1000,
       MigEvent.batch ((dataArray.drop 10).drop 10)] ∧
    (dataArray.take 10).length = 10 ∧
    ((dataArray.drop 10).take 10).length = 10 ∧
    ((dataArray.drop 10).drop 10).length = 5 ∧
    (encryptMigration deepEncrypt dataArray pass options rand σ).delayCalls = 2 := by
  have hk : (safeBatchSize (options.batchSize.getD 10)).toNat - 1 = 9 := by
    rw [hbs]; decide
  have hd : safeDelay (options.delayBetweenBatches.getD 1000) = 1000 := by
    rw [hdel]; decide
  obtain ⟨x, xs, hx⟩ : ∃ y ys, dataArray = y :: ys := by
    cases dataArray with
    | nil => simp at h25
    | cons a l => exact ⟨a, l, rfl⟩
  subst hx
  have hr1 : ((x :: xs).drop 10).length = 15 := by
    rw [List.length_drop, h25]
  obtain ⟨y, ys, hy⟩ : ∃ z zs, (x :: xs).drop 10 = z :: zs := by
    cases hdrop : (x :: xs).drop 10 with
    | nil => rw [hdrop] at hr1; simp at hr1
    | cons a l => exact ⟨a, l, rfl⟩
  have hylen : (y :: ys).length = 15 := by rw [← hy]; exact hr1
  have hr2 : ((y :: ys).drop 10).length = 5 := by
    rw [List.length_drop, hylen]
  obtain ⟨z, zs, hz⟩ : ∃ w ws, (y :: ys).drop 10 = w :: ws := by
    cases hdrop : (y :: ys).drop 10 with
    | nil => rw [hdrop] at hr2; simp at hr2
    | cons a l => exact ⟨a, l, rfl⟩
  have hzlen : (z :: zs).length = 5 := by rw [← hz]; exact hr2
  have hz10 : (z :: zs).drop 10 = [] := by
    apply List.drop_eq_nil_of_le
    omega
  have hztake : (z :: zs).take 10 = z :: zs := by
    apply List.take_of_length_le
    omega
  have hc1 : 9 + 1 < (x :: xs).length ∧ (0 : Int) < 1000 := ⟨by omega, by decide⟩
  have hc2 : 9 + 1 < (y :: ys).length ∧ (0 : Int) < 1000 := ⟨by omega, by decide⟩
  have hc3 : ¬(9 + 1 < (z :: zs).length ∧ (0 : Int) < 1000) := by
    intro hcon
    omega
  refine ⟨?_, ?_, ?_, ?_, ?_⟩
  · rw [encryptMigration_trace, hk, hd, h25]
    rw [show (25 : Nat) = 24 + 1 from rfl, batchTrace_cons, if_pos hc1, hy]
    rw [show (24 : Nat) = 23 + 1 from rfl, batchTrace_cons, if_pos hc2, hz]
    rw [show (23 : Nat) = 22 + 1 from rfl, batchTrace_cons, if_neg hc3, hz10,
      batchTrace_nil, hztake]
    simp
  · rw [List.length_take, h25]
    omega
  · rw [hy, List.length_take, hylen]
    omega
  · rw [hy, hz, hzlen]
  · rw [encryptMigration_delayCalls, hk, hd, h25]
    rw [show (25 : Nat) = 24 + 1 from rfl, delayCount_cons, if_pos hc1, hy]
    rw [show (24 : Nat) = 23 + 1 from rfl, delayCount_cons, if_pos hc2, hz]
    rw [show (23 : Nat) = 22 + 1 from rfl, delayCount_cons, if_neg hc3, hz10,
      delayCount_nil]

/-- Witness for C7 on the concrete input 0, 1, ..., 24. -/
theorem c7_batch_partition_witness :
    (encryptMigration (fun (_ : Nat) (_ : Option Unit) (_ : Nat) => (.ok 0 : Except Nat Nat))
        (List.range 25) "pw" { batchSize := some 10 } (fun _ _ => 0) id).delayCalls = 2 :=
  (c7_batch_partition (fun (_ : Nat) (_ : Option Unit) (_ : Nat) => (.ok 0 : Except Nat Nat))
    (List.range 25) "pw" { batchSize := some 10 } (fun _ _ => 0) id
    (by decide) rfl rfl).2.2.2.2

end Claims

end Cipherion
